import Mathlib

/-!
The aggregation engine of `fastly_api.go`.

A shallow embedding of `resolveHostname`, `extractCNAME`, `extractNS`,
`extractStatsInfo`, `extractDomainInfo` and `extractOrigin` of `fastly_api.go`.

The DNS resolver (`net`), the provider client (`fastly`), `sort.Slice`, the
`%f` verb of `fmt` and the Go runtime (map iteration order, the order in which
the goroutines write) are not part of the file; they are the fields of `Env`.
A library call keeps Go's shape: it returns a value together with an error.
The process can end before it writes anything, by `log.Fatal` or by the panic
of a nil-pointer dereference; the goroutine body then has no record.
The fan-out itself (goroutines, mutex, wait group) is the machine `fanOut`,
run under the scheduler's choices.
-/

namespace FastlyApi

/-! ## Data model -/

/-- Go's `(value, error)` pair returned by a library call; `err` is `err != nil`. -/
structure Result (α : Type) where
  val : α
  err : Bool
  deriving DecidableEq, Repr

/-- A `time.Time` instant; `0` is the zero value. -/
abbrev Time := Int

/-- A `float64`, kept as its IEEE-754 bit pattern; the zero value `0.0` has bits `0`. -/
structure Float64 where
  bits : Nat
  deriving DecidableEq, Repr

/-- A `net.IP`, which is a byte slice. -/
abbrev IP := List Nat

/-- Type `net.NS`. -/
structure NS where
  Host : String
  deriving DecidableEq, Repr

/-- Type `Counter` (lines 16-19). -/
structure Counter where
  id : String
  number : Int
  deriving DecidableEq, Repr

/-- Type `CsvBuild` (lines 21-42); the defaults are Go's zero values, so `{}` is `&CsvBuild{}`. -/
structure CsvBuild where
  ServiceName : String := ""
  ServiceID : String := ""
  Origin : List String := []
  CreatedDate : Time := 0
  UpdatedDate : Time := 0
  Requests : Nat := 0
  Status400 : Nat := 0
  Status401 : Nat := 0
  Status403 : Nat := 0
  Status404 : Nat := 0
  Status500 : Nat := 0
  Status501 : Nat := 0
  Status502 : Nat := 0
  Status503 : Nat := 0
  Status504 : Nat := 0
  Status505 : Nat := 0
  HitRatio : Float64 := ⟨0⟩
  IPsFound : List String := []
  Domains : List String := []
  NameServers : List String := []
  deriving DecidableEq, Repr

/-- The fields of `fastly.Backend` that the program reads. The two timestamps are pointers
(`*time.Time`); `none` is the nil pointer. -/
structure Backend where
  Hostname : String
  CreatedAt : Option Time
  UpdatedAt : Option Time
  deriving DecidableEq, Repr

/-- The field of `fastly.Domain` that the program reads. -/
structure Domain where
  Name : String
  deriving DecidableEq, Repr

/-- The fields of `fastly.Stats` that the program reads. -/
structure Stats where
  HitRatio : Float64 := ⟨0⟩
  Requests : Nat := 0
  Status400 : Nat := 0
  Status401 : Nat := 0
  Status403 : Nat := 0
  Status404 : Nat := 0
  Status500 : Nat := 0
  Status501 : Nat := 0
  Status502 : Nat := 0
  Status503 : Nat := 0
  Status504 : Nat := 0
  Status505 : Nat := 0
  deriving DecidableEq, Repr

/-- Type `fastly.StatsResponse`, of which the program reads `Data`, a slice of pointers
(`[]*Stats`); `none` is a nil entry. -/
structure StatsResponse where
  Data : List (Option Stats) := []
  deriving DecidableEq, Repr

/-- Everything the file calls but does not define. -/
structure Env where
  /-- Call `net.LookupIP`. -/
  LookupIP : String → Result (List IP)
  /-- Method `net.IP.String`. -/
  ipString : IP → String
  /-- Call `net.LookupCNAME`. -/
  LookupCNAME : String → Result String
  /-- Call `net.LookupNS`; it may hand back records together with an error. -/
  LookupNS : String → Result (List NS)
  /-- Call `client.ListBackends` with a service ID and a version number. -/
  ListBackends : String → Int → Result (List Backend)
  /-- Call `client.ListServiceDomains` with a service ID. -/
  ListServiceDomains : String → Result (List Domain)
  /-- Call `client.GetStats` with service, `From` and `By`. -/
  GetStats : String → String → String → Result StatsResponse
  /-- The order in which a `range` over a `map[string]bool` visits the keys. -/
  mapRange : List String → List String
  /-- The order in which the goroutines launched over the service map write to `s`; `fanOut`
  gives the orders that occur. -/
  schedule : List (String × Counter) → List (String × Counter)
  /-- Call `sort.Slice`, with the `less` closure read as a comparison of elements. -/
  sortSlice : (CsvBuild → CsvBuild → Bool) → List CsvBuild → List CsvBuild
  /-- The `%f` verb of `fmt.Printf`. -/
  fmtFloat : Float64 → String

/-! ## Hostname resolver -/

/-- Function `resolveHostname` (lines 44-54). -/
def resolveHostname (env : Env) (hostname : String) : List String :=
  let r := env.LookupIP hostname
  let ipsFound : List String := if r.err then [] ++ ["Host resolution failed"] else []
  r.val.foldl (fun acc ip => acc ++ [env.ipString ip]) ipsFound

/-- Function `extractCNAME` (lines 56-63). -/
def extractCNAME (env : Env) (hostname : String) : Result String :=
  let placeHolder : String := ""
  let r := env.LookupCNAME hostname
  if r.err then ⟨placeHolder, true⟩ else ⟨r.val, false⟩

/-- Assignment `m[k] = true` on a `map[string]bool` that only ever stores `true`: the map is
its list of keys, each kept once. -/
def mapSet (m : List String) (k : String) : List String :=
  if k ∈ m then m else m ++ [k]

/-- One iteration of the loop over `domains` in `extractNS` (lines 69-83). -/
def extractNSStep (env : Env) (NameSrvsFound : List String) (i : String) : List String :=
  let r := env.LookupNS i
  let m1 :=
    if r.err then
      let c := extractCNAME env i
      if c.err then mapSet NameSrvsFound "NS resolution failed"
      else mapSet NameSrvsFound c.val
    else NameSrvsFound
  r.val.foldl (fun m nmSrv => mapSet m nmSrv.Host) m1

/-- Function `extractNS` (lines 65-89). -/
def extractNS (env : Env) (domains : List String) : List String :=
  let NameSrvsFound := domains.foldl (extractNSStep env) []
  (env.mapRange NameSrvsFound).foldl (fun acc k => acc ++ [k]) []

/-! ## Provider queries -/

/-- Function `extractStatsInfo` (lines 107-123). It returns a pointer: `nil` (`none`) on
failure, the client's response on success. -/
def extractStatsInfo (env : Env) (id : String) : Result (Option StatsResponse) :=
  let fromString := "two months ago"
  let byString := "day"
  let r := env.GetStats id fromString byString
  if r.err then ⟨none, true⟩ else ⟨some r.val, false⟩

/-- Function `extractDomainInfo` (lines 125-137). -/
def extractDomainInfo (env : Env) (id : String) : List String :=
  let domainsFound : List String := []
  let r := env.ListServiceDomains id
  let domainsFound := if r.err then domainsFound ++ ["No Domains Found"] else domainsFound
  r.val.foldl (fun acc i => acc ++ [i.Name]) domainsFound

/-! ## Enrichment task -/

/-- The loop over `fastlyStats.Data` in `extractOrigin` (lines 175-188). Reading a field of a
nil entry panics: `none`. -/
def statsLoop (csv_build : CsvBuild) : List (Option Stats) → Option CsvBuild
  | [] => some csv_build
  | none :: _ => none
  | some fstats :: rest =>
    statsLoop
      { csv_build with
        HitRatio := fstats.HitRatio
        Requests := fstats.Requests
        Status400 := fstats.Status400
        Status401 := fstats.Status401
        Status403 := fstats.Status403
        Status404 := fstats.Status404
        Status500 := fstats.Status400
        Status501 := fstats.Status501
        Status502 := fstats.Status502
        Status503 := fstats.Status503
        Status504 := fstats.Status504
        Status505 := fstats.Status505 } rest

/-- One iteration of the loop over `backendInfo` in `extractOrigin` (lines 194-202).
Dereferencing a nil `CreatedAt` or `UpdatedAt` (lines 196-197) panics: `none`. -/
def backendStep (env : Env) (c : CsvBuild) (i : Backend) : Option CsvBuild :=
  if i.Hostname != "" then
    let c1 : CsvBuild := { c with Origin := c.Origin ++ [i.Hostname] }
    match i.CreatedAt with
    | none => none
    | some created =>
      let c2 : CsvBuild := { c1 with CreatedDate := created }
      match i.UpdatedAt with
      | none => none
      | some updated =>
        let c3 : CsvBuild := { c2 with UpdatedDate := updated }
        let hostExtract := resolveHostname env i.Hostname
        some (hostExtract.foldl (fun c4 host => { c4 with IPsFound := c4.IPsFound ++ [host] }) c3)
  else some c

/-- The loop over `backendInfo` in `extractOrigin` (lines 193-203). -/
def backendLoop (env : Env) (c : CsvBuild) : List Backend → Option CsvBuild
  | [] => some c
  | i :: rest =>
    match backendStep env c i with
    | none => none
    | some c1 => backendLoop env c1 rest

/-- The body of the goroutine of `extractOrigin` up to its append (lines 158-204), for the map
entry `k`, `v`. `none` is the end of the process before anything is written: `log.Fatal(err)`
at line 165, or a nil-pointer panic at lines 175-187 or 196-197. -/
def enrich (env : Env) (k : String) (v : Counter) : Option CsvBuild :=
  let backendInfo := env.ListBackends v.id v.number
  if backendInfo.err then none
  else
    let domainsFound := extractDomainInfo env v.id
    let fastlyStats := extractStatsInfo env v.id
    let csv_build : CsvBuild := {}
    let csv_build := { csv_build with ServiceName := k, ServiceID := v.id, Domains := domainsFound }
    match (if fastlyStats.err = false then
          match fastlyStats.val with
          | none => none
          | some response => statsLoop csv_build response.Data
        else some csv_build) with
    | none => none
    | some csv_build =>
      let csv_build := { csv_build with NameServers := extractNS env domainsFound }
      if backendInfo.val.length > 0 then backendLoop env csv_build backendInfo.val
      else some csv_build

/-- The slice `s` after `wg.Wait()` (lines 152-210) when the goroutines reach their append in
the order of the given entries. `none` when a goroutine ended the process. -/
def collect (env : Env) : List (String × Counter) → Option (List CsvBuild)
  | [] => some []
  | (k, v) :: rest =>
    match enrich env k v with
    | none => none
    | some csv_build =>
      match collect env rest with
      | none => none
      | some s => some (csv_build :: s)

/-! ## The fan-out, step by step

The loop of lines 155-209 and the `wg.Wait()` of line 210 as a machine: the main goroutine
launches one goroutine per map entry, each goroutine runs its body, takes the mutex, appends to
`s` (a read of `s` followed by a write), releases the mutex and calls `wg.Done()`; `wg.Wait()`
returns when the counter is zero. Which goroutine moves next is the scheduler's choice. -/

/-- Where a goroutine stands. -/
inductive Pc
  /-- Launched; lines 160-204 still to run. -/
  | body
  /-- At `mu.Lock()` (line 205). -/
  | atLock
  /-- Holds the mutex; `append` has not yet read `s`. -/
  | holding
  /-- The `append` of line 206 has read `s`. -/
  | loaded
  /-- Line 206 has written `s`; the mutex is still held. -/
  | stored
  /-- After `mu.Unlock()` (line 207); the deferred `wg.Done()` is pending. -/
  | unlocked
  /-- After `wg.Done()`. -/
  | gone
  deriving DecidableEq, Repr

/-- A goroutine: its arguments `k` and `v`, where it stands, its local `csv_build`, and the
value of `s` its `append` has read. -/
structure Task where
  k : String
  v : Counter
  pc : Pc
  csv_build : CsvBuild
  old : List CsvBuild
  deriving DecidableEq, Repr

/-- The state of the fan-out: the map entries the `range` has not reached, the goroutines
launched, the mutex `mu` (locked or not), the counter of `wg`, and the shared slice `s`. -/
structure Fan where
  todo : List (String × Counter)
  tasks : List Task
  mu : Bool
  wg : Nat
  s : List CsvBuild
  deriving DecidableEq, Repr

/-- The fan-out is still going, the process has ended, or `wg.Wait()` has returned with `s`. -/
inductive Run
  | going (σ : Fan)
  | exited
  | returned (s : List CsvBuild)
  deriving DecidableEq, Repr

/-- A move: the main goroutine launches the goroutine of the `j`-th remaining entry (the
`range` order is the runtime's), the `i`-th goroutine makes its next step, or `wg.Wait()`
returns. -/
inductive Action
  | launch (j : Nat)
  | task (i : Nat)
  | wait
  deriving DecidableEq, Repr

/-- A goroutine can move unless it has finished or waits for a locked mutex. -/
def runnable (mu : Bool) (t : Task) : Bool :=
  match t.pc with
  | .atLock => !mu
  | .gone => false
  | _ => true

/-- The moves possible in a state. `wg.Wait()` is reached after the loop and returns when the
counter is zero. -/
def enabled (σ : Fan) : List Action :=
  (List.range σ.todo.length).map Action.launch ++
  ((List.range σ.tasks.length).filter
    (fun i => match σ.tasks[i]? with
      | some t => runnable σ.mu t
      | none => false)).map Action.task ++
  (if σ.todo = [] ∧ σ.wg = 0 then [Action.wait] else [])

/-- The next step of a goroutine. -/
def stepTask (env : Env) (σ : Fan) (i : Nat) (t : Task) : Run :=
  match t.pc with
  | .body =>
    match enrich env t.k t.v with
    | none => .exited
    | some r => .going { σ with tasks := σ.tasks.set i { t with pc := .atLock, csv_build := r } }
  | .atLock =>
    if σ.mu then .going σ
    else .going { σ with mu := true, tasks := σ.tasks.set i { t with pc := .holding } }
  | .holding => .going { σ with tasks := σ.tasks.set i { t with pc := .loaded, old := σ.s } }
  | .loaded =>
    .going { σ with s := t.old ++ [t.csv_build], tasks := σ.tasks.set i { t with pc := .stored } }
  | .stored => .going { σ with mu := false, tasks := σ.tasks.set i { t with pc := .unlocked } }
  | .unlocked => .going { σ with wg := σ.wg - 1, tasks := σ.tasks.set i { t with pc := .gone } }
  | .gone => .going σ

/-- The effect of a move. -/
def act (env : Env) (σ : Fan) : Action → Run
  | .launch j =>
    match σ.todo[j]? with
    | some (k, v) =>
      .going { σ with
        todo := σ.todo.eraseIdx j
        wg := σ.wg + 1
        tasks := σ.tasks ++ [{ k := k, v := v, pc := .body, csv_build := {}, old := [] }] }
    | none => .going σ
  | .task i =>
    match σ.tasks[i]? with
    | some t => stepTask env σ i t
    | none => .going σ
  | .wait => if σ.todo = [] ∧ σ.wg = 0 then .returned σ.s else .going σ

/-- One step under the scheduler's choice `c` among the possible moves. -/
def step (env : Env) (c : Nat) (σ : Fan) : Run :=
  match (enabled σ)[c % (enabled σ).length]? with
  | some a => act env σ a
  | none => .going σ

/-- The run under a sequence of scheduler choices. -/
def run (env : Env) : List Nat → Run → Run
  | c :: cs, .going σ => run env cs (step env c σ)
  | _, r => r

/-- Lines 152-210 for the service map given by its entries, under a sequence of scheduler
choices. -/
def fanOut (env : Env) (choices : List Nat) (serviceInfo : List (String × Counter)) : Run :=
  run env choices (.going { todo := serviceInfo, tasks := [], mu := false, wg := 0, s := [] })

/-! ## Ranking and emission -/

/-- The closure given to `sort.Slice` (lines 211-213). -/
def less (a b : CsvBuild) : Bool := decide (a.Requests > b.Requests)

/-- The slice `s` after the sort step (lines 152-213), for the service map given by its entries. -/
def ranked (env : Env) (serviceInfo : List (String × Counter)) : Option (List CsvBuild) :=
  match collect env (env.schedule serviceInfo) with
  | none => none
  | some s => some (env.sortSlice less s)

/-- The `%s` verb applied to a `[]string`: the elements between brackets, a blank between two. -/
def fmtStrings (l : List String) : String := "[" ++ " ".intercalate l ++ "]"

/-- The `%d` verb applied to a `uint64`. -/
def fmtUint (n : Nat) : String := toString n

/-- The header line (line 215), without its line terminator. -/
def headerRow : String :=
  "service name,origin,domains,hit-ratio,400status,401status,403status,404status,500status,501status,502status,503status,504status,505status"

/-- The data line of a record (line 223), without its line terminator. -/
def dataRow (env : Env) (t : CsvBuild) : String :=
  t.ServiceName ++ "," ++ fmtStrings t.Origin ++ "," ++ fmtStrings t.Domains ++ "," ++
  env.fmtFloat t.HitRatio ++ "," ++ fmtUint t.Status400 ++ "," ++ fmtUint t.Status401 ++ "," ++
  fmtUint t.Status403 ++ "," ++ fmtUint t.Status404 ++ "," ++ fmtUint t.Status500 ++ "," ++
  fmtUint t.Status501 ++ "," ++ fmtUint t.Status502 ++ "," ++ fmtUint t.Status503 ++ "," ++
  fmtUint t.Status504 ++ "," ++ fmtUint t.Status505

/-- Function `extractOrigin` (lines 151-228): the lines written to standard output, or `none`
when `log.Fatal` ended the process before anything was written. -/
def extractOrigin (env : Env) (serviceInfo : List (String × Counter)) : Option (List String) :=
  match ranked env serviceInfo with
  | none => none
  | some s => some ((headerRow ++ "\n") :: s.map (fun t => dataRow env t ++ "\n"))

/-- The fields of a line, split on commas. -/
def fields (row : String) : List String := (row.toList.splitOn ',').map String.mk

/-! ## Conditions on the environment -/

/-- A `range` over a map visits every key once. -/
def MapRangeOk (env : Env) : Prop := ∀ m : List String, (env.mapRange m).Perm m

/-- The requirement of `sort.Interface.Less` on a comparison: a strict weak ordering. -/
def StrictWeak (lt : CsvBuild → CsvBuild → Bool) : Prop :=
  (∀ a, lt a a = false) ∧
  (∀ a b c, lt a b = true → lt b c = true → lt a c = true) ∧
  (∀ a b c, lt a b = false → lt b c = false → lt a c = false)

/-- What `sort.Slice` documents: for a valid `less`, the slice is rearranged so that no element
is less than one standing before it; equal elements may come out in any order. -/
def SortSliceOk (env : Env) : Prop :=
  ∀ (lt : CsvBuild → CsvBuild → Bool) (l : List CsvBuild), StrictWeak lt →
    (env.sortSlice lt l).Perm l ∧ (env.sortSlice lt l).Pairwise (fun a b => lt b a = false)

/-- The `%f` verb writes a sign, digits, a point, or `NaN`/`Inf`, never a comma. -/
def FmtFloatOk (env : Env) : Prop := ∀ x : Float64, ',' ∉ (env.fmtFloat x).toList

/-- What `net.LookupIP` returns: an error and no address, or no error and at least one
address. -/
def LookupIPOk (env : Env) : Prop :=
  ∀ h : String,
    ((env.LookupIP h).err = true → (env.LookupIP h).val = []) ∧
    ((env.LookupIP h).err = false → (env.LookupIP h).val ≠ [])

/-- No entry of a successful statistics answer for the service is nil. -/
def StatsSafe (env : Env) (id : String) : Prop :=
  (env.GetStats id "two months ago" "day").err = false →
    ∀ e ∈ (env.GetStats id "two months ago" "day").val.Data, e.isSome = true

/-- Every backend with a hostname carries both timestamps. -/
def BackendsSafe (backendInfo : List Backend) : Prop :=
  ∀ b ∈ backendInfo, b.Hostname ≠ "" → b.CreatedAt.isSome = true ∧ b.UpdatedAt.isSome = true

/-! ## Descriptions used in the statements -/

/-- The contribution of one domain to the name-server set, as the code computes it: the CNAME
target or the sentinel when the NS lookup reports an error, and the host of every NS record
the lookup handed back. -/
def nsContribution (env : Env) (d : String) : List String :=
  (if (env.LookupNS d).err then
      (if (env.LookupCNAME d).err then ["NS resolution failed"] else [(env.LookupCNAME d).val])
    else []) ++ (env.LookupNS d).val.map NS.Host

/-- The contribution of one domain in the words of the specification: the hosts of its NS
records when the NS lookup succeeds, only the CNAME target when the NS lookup fails and the
CNAME lookup succeeds, only the sentinel when both fail. -/
def nsContributionSpec (env : Env) (d : String) : List String :=
  if (env.LookupNS d).err then
    (if (env.LookupCNAME d).err then ["NS resolution failed"] else [(env.LookupCNAME d).val])
  else (env.LookupNS d).val.map NS.Host

/-- The assignments made by one pass of the statistics loop (lines 176-187). -/
def applyStats (c : CsvBuild) (fstats : Stats) : CsvBuild :=
  { c with
    HitRatio := fstats.HitRatio
    Requests := fstats.Requests
    Status400 := fstats.Status400
    Status401 := fstats.Status401
    Status403 := fstats.Status403
    Status404 := fstats.Status404
    Status500 := fstats.Status400
    Status501 := fstats.Status501
    Status502 := fstats.Status502
    Status503 := fstats.Status503
    Status504 := fstats.Status504
    Status505 := fstats.Status505 }

/-- The backend hostnames that are not empty, in listing order. -/
def originHosts (backendInfo : List Backend) : List String :=
  (backendInfo.map Backend.Hostname).filter (fun h => h != "")

/-- The record as it stands before the loop over the backends (lines 168-190), when no entry
of the statistics answer is nil. -/
def enrichBase (env : Env) (k : String) (v : Counter) : CsvBuild :=
  let c0 : CsvBuild :=
    { ServiceName := k, ServiceID := v.id, Domains := extractDomainInfo env v.id }
  let c1 :=
    if (env.GetStats v.id "two months ago" "day").err = false then
      (env.GetStats v.id "two months ago" "day").val.Data.reduceOption.foldl applyStats c0
    else c0
  { c1 with NameServers := extractNS env (extractDomainInfo env v.id) }

/-- The fields that the loop over the backends leaves alone. -/
def frame (c : CsvBuild) :
    String × String × List String × List String × Nat × Float64 × List Nat :=
  (c.ServiceName, c.ServiceID, c.Domains, c.NameServers, c.Requests, c.HitRatio,
    [c.Status400, c.Status401, c.Status403, c.Status404, c.Status500, c.Status501, c.Status502,
      c.Status503, c.Status504, c.Status505])

/-- The steps a goroutine still has to make. -/
def cost : Pc → Nat
  | .body => 6
  | .atLock => 5
  | .holding => 4
  | .loaded => 3
  | .stored => 2
  | .unlocked => 1
  | .gone => 0

/-- The steps the fan-out still has to make. -/
def weight (σ : Fan) : Nat :=
  7 * σ.todo.length + (σ.tasks.map (fun t => cost t.pc)).sum + 1

/-- The goroutine has not called `wg.Done()`. -/
def live (t : Task) : Bool := t.pc != .gone

/-- The goroutine is between `mu.Lock()` and `mu.Unlock()`. -/
def crit (t : Task) : Bool :=
  match t.pc with
  | .holding | .loaded | .stored => true
  | _ => false

/-- The goroutine has written its record to `s`. -/
def appended (t : Task) : Bool :=
  match t.pc with
  | .stored | .unlocked | .gone => true
  | _ => false

/-- The map entry of a goroutine. -/
def entry (t : Task) : String × Counter := (t.k, t.v)

/-- What holds in every state the fan-out reaches from the entries `serviceInfo`: the counter
of `wg` counts the goroutines that have not finished, the mutex is locked exactly when one
goroutine is between `Lock` and `Unlock`, `s` holds the records of the goroutines that have
written, in the order of their writes, a goroutine that has read `s` has read its present
value, a goroutine past its body holds its record, and the entries are those still to launch
together with those launched. -/
structure Inv (env : Env) (serviceInfo : List (String × Counter)) (σ : Fan) : Prop where
  wg_eq : σ.wg = σ.tasks.countP live
  mu_eq : σ.tasks.countP crit = if σ.mu then 1 else 0
  s_eq : ∃ order : List (String × Counter),
    order.Perm ((σ.tasks.filter appended).map entry) ∧ collect env order = some σ.s
  old_eq : ∀ t ∈ σ.tasks, t.pc = .loaded → t.old = σ.s
  rec_eq : ∀ t ∈ σ.tasks, t.pc ≠ .body → enrich env t.k t.v = some t.csv_build
  all_eq : (σ.todo ++ σ.tasks.map entry).Perm serviceInfo

/-! ## Concrete environments and records -/

/-- An environment in which no host resolves, every other query succeeds with nothing, the
runtime keeps the given orders, `sort.Slice` is an insertion sort and `%f` prints the bit
pattern. -/
def quiet : Env where
  LookupIP := fun _ => ⟨[], true⟩
  ipString := fun ip => ".".intercalate (ip.map toString)
  LookupCNAME := fun _ => ⟨"", false⟩
  LookupNS := fun _ => ⟨[], false⟩
  ListBackends := fun _ _ => ⟨[], false⟩
  ListServiceDomains := fun _ => ⟨[], false⟩
  GetStats := fun _ _ _ => ⟨{}, false⟩
  mapRange := fun m => m
  schedule := fun l => l
  sortSlice := fun lt l => l.insertionSort (fun a b => lt b a = false)
  fmtFloat := fun x => toString x.bits

/-- Two domains whose name-server sets overlap, a third that is an alias, a fourth that does
not resolve, and a fifth whose NS answer holds a malformed record: the valid record comes back
together with an error. One origin host resolves to two addresses, the others do not resolve. -/
def dnsEnv : Env :=
  { quiet with
    LookupNS := fun d =>
      if d = "a.example.com" then ⟨[⟨"ns1.example.net"⟩, ⟨"ns2.example.net"⟩], false⟩
      else if d = "b.example.com" then ⟨[⟨"ns2.example.net"⟩, ⟨"ns3.example.net"⟩], false⟩
      else if d = "partial.example.com" then ⟨[⟨"ns9.example.net"⟩], true⟩
      else ⟨[], true⟩
    LookupCNAME := fun d =>
      if d = "www.example.com" then ⟨"edge.example.net", false⟩ else ⟨"", true⟩
    LookupIP := fun h =>
      if h = "o1.example.com" then ⟨[[192, 0, 2, 1], [192, 0, 2, 2]], false⟩
      else ⟨[], true⟩
    mapRange := fun m => m.reverse }

/-- A provider account with three services: `id-a` answers every query, the backend listing
of `id-b` fails, and for `id-c` the domain listing and the statistics query fail. -/
def svcEnv : Env :=
  { dnsEnv with
    ListBackends := fun id _ =>
      if id = "id-a" then
        ⟨[⟨"o1.example.com", some 100, some 200⟩, ⟨"", none, none⟩,
          ⟨"gone.example.com", some 300, some 400⟩], false⟩
      else if id = "id-b" then ⟨[], true⟩
      else if id = "id-c" then ⟨[⟨"o1.example.com", some 5, some 6⟩], false⟩
      else ⟨[], false⟩
    ListServiceDomains := fun id =>
      if id = "id-a" then ⟨[⟨"a.example.com"⟩, ⟨"b.example.com"⟩], false⟩
      else if id = "id-c" then ⟨[], true⟩
      else ⟨[], false⟩
    GetStats := fun id _ _ =>
      if id = "id-a" then
        ⟨{ Data := [some { Requests := 7, Status400 := 9, Status500 := 9 },
                    some { Requests := 500, Status400 := 1, Status500 := 2, Status503 := 4 }] },
          false⟩
      else if id = "id-c" then ⟨{}, true⟩
      else ⟨{}, false⟩ }

/-- Three services, all queries answered, with 10, 500 and 3 requests. -/
def rankEnv : Env :=
  { quiet with
    GetStats := fun id _ _ =>
      if id = "id-a" then ⟨{ Data := [some { Requests := 10 }] }, false⟩
      else if id = "id-b" then ⟨{ Data := [some { Requests := 500 }] }, false⟩
      else ⟨{ Data := [some { Requests := 3 }] }, false⟩ }

/-- An environment whose `%f` prints the `float64` nearest to 0.87 as `0.870000`. -/
def reportEnv : Env :=
  { quiet with
    fmtFloat := fun x => if x.bits = 4606011482896901079 then "0.870000" else "0.000000" }

/-- The record of the specification's example. -/
def exampleRecord : CsvBuild :=
  { ServiceName := "svc-a", Origin := ["o1.example.com"], Domains := ["d1.example.com"],
    HitRatio := ⟨4606011482896901079⟩, Status400 := 2 }

/-- The record of the specification's example, with a comma in the service name. -/
def commaRecord : CsvBuild :=
  { ServiceName := "svc,a", Origin := ["o1.example.com"], Domains := ["d1.example.com"],
    HitRatio := ⟨4606011482896901079⟩, Status400 := 2 }

/-! ## Loops that append -/

theorem foldl_append_singleton {α β : Type} (f : α → β) (l : List α) (init : List β) :
    l.foldl (fun acc x => acc ++ [f x]) init = init ++ l.map f := by
  induction l generalizing init with
  | nil => simp
  | cons a t ih => simp [List.foldl_cons, ih, List.append_assoc]

theorem resolveHostname_eq (env : Env) (hostname : String) :
    resolveHostname env hostname =
      (if (env.LookupIP hostname).err then ["Host resolution failed"] else []) ++
        (env.LookupIP hostname).val.map env.ipString := by
  unfold resolveHostname
  simp only [foldl_append_singleton, List.nil_append]

theorem extractDomainInfo_eq (env : Env) (id : String) :
    extractDomainInfo env id =
      (if (env.ListServiceDomains id).err then ["No Domains Found"] else []) ++
        (env.ListServiceDomains id).val.map Domain.Name := by
  unfold extractDomainInfo
  simp only [foldl_append_singleton, List.nil_append]

/-! ## The key set of the name-server map -/

theorem mem_mapSet (m : List String) (k x : String) : x ∈ mapSet m k ↔ x ∈ m ∨ x = k := by
  unfold mapSet
  by_cases h : k ∈ m
  · simp only [h, if_true]
    constructor
    · exact Or.inl
    · rintro (h1 | h1)
      · exact h1
      · exact h1 ▸ h
  · simp [h]

theorem nodup_mapSet (m : List String) (k : String) (h : m.Nodup) : (mapSet m k).Nodup := by
  unfold mapSet
  by_cases hk : k ∈ m
  · simpa [hk] using h
  · simp only [hk, if_false]
    refine List.Nodup.append h (List.nodup_singleton k) ?_
    intro a ha hb
    rw [List.mem_singleton] at hb
    exact hk (hb ▸ ha)

theorem mem_foldl_mapSet {α : Type} (f : α → String) (l : List α) (m : List String)
    (x : String) :
    x ∈ l.foldl (fun acc a => mapSet acc (f a)) m ↔ x ∈ m ∨ x ∈ l.map f := by
  induction l generalizing m with
  | nil => simp
  | cons a t ih =>
    simp only [List.foldl_cons, ih, mem_mapSet, List.map_cons, List.mem_cons]
    tauto

theorem nodup_foldl_mapSet {α : Type} (f : α → String) (l : List α) (m : List String)
    (h : m.Nodup) : (l.foldl (fun acc a => mapSet acc (f a)) m).Nodup := by
  induction l generalizing m with
  | nil => simpa using h
  | cons a t ih => exact ih _ (nodup_mapSet m (f a) h)

theorem mem_extractNSStep (env : Env) (m : List String) (i x : String) :
    x ∈ extractNSStep env m i ↔ x ∈ m ∨ x ∈ nsContribution env i := by
  unfold extractNSStep nsContribution extractCNAME
  simp only [mem_foldl_mapSet]
  cases h1 : (env.LookupNS i).err <;> cases h2 : (env.LookupCNAME i).err <;>
    simp [mem_mapSet, or_assoc]

theorem nodup_extractNSStep (env : Env) (m : List String) (i : String) (h : m.Nodup) :
    (extractNSStep env m i).Nodup := by
  unfold extractNSStep
  apply nodup_foldl_mapSet
  simp only
  split
  · split
    · exact nodup_mapSet _ _ h
    · exact nodup_mapSet _ _ h
  · exact h

theorem mem_foldl_extractNSStep (env : Env) (domains : List String) (m : List String)
    (x : String) :
    x ∈ domains.foldl (extractNSStep env) m ↔
      x ∈ m ∨ ∃ d ∈ domains, x ∈ nsContribution env d := by
  induction domains generalizing m with
  | nil => simp
  | cons a t ih =>
    simp only [List.foldl_cons, ih, mem_extractNSStep, List.mem_cons, exists_eq_or_imp]
    tauto

theorem nodup_foldl_extractNSStep (env : Env) (domains : List String) (m : List String)
    (h : m.Nodup) : (domains.foldl (extractNSStep env) m).Nodup := by
  induction domains generalizing m with
  | nil => simpa using h
  | cons a t ih => exact ih _ (nodup_extractNSStep env m a h)

theorem extractNS_eq (env : Env) (domains : List String) :
    extractNS env domains = env.mapRange (domains.foldl (extractNSStep env) []) := by
  unfold extractNS
  simp only [foldl_append_singleton, List.nil_append, List.map_id_fun, id_eq]
  exact List.map_id _

theorem mapRangeOk_dnsEnv : MapRangeOk dnsEnv := fun m => List.reverse_perm m

theorem lookupIPOk_dnsEnv : LookupIPOk dnsEnv := by
  intro h
  by_cases hh : h = "o1.example.com" <;> simp [dnsEnv, hh]

theorem lookupIPOk_svcEnv : LookupIPOk svcEnv := by
  intro h
  by_cases hh : h = "o1.example.com" <;> simp [svcEnv, dnsEnv, hh]

/-! ## Claims on the hostname resolver and the provider queries -/

/-- C3. With a map iteration that visits every key once, the slice returned by `extractNS`
holds no string twice, and every string contributed by one of the domains (the host of an NS
record, a CNAME target, the sentinel) occurs in it exactly once, for every sequence of domains
and every outcome of the NS and CNAME lookups. -/
theorem extractNS_nodup (env : Env) (hrange : MapRangeOk env) (domains : List String) :
    (extractNS env domains).Nodup ∧
    ∀ x, (∃ d ∈ domains, x ∈ nsContribution env d) → (extractNS env domains).count x = 1 := by
  have hnd : (extractNS env domains).Nodup := by
    rw [extractNS_eq]
    exact (hrange _).nodup_iff.mpr (nodup_foldl_extractNSStep env domains [] List.nodup_nil)
  refine ⟨hnd, fun x hx => ?_⟩
  have hmem : x ∈ extractNS env domains := by
    rw [extractNS_eq, (hrange _).mem_iff, mem_foldl_extractNSStep]
    exact Or.inr hx
  exact List.count_eq_one_of_mem hnd hmem

/-- C3, at two domains with overlapping name-server sets, one of them listed twice: the shared
name server occurs once. -/
theorem extractNS_nodup_witness :
    MapRangeOk dnsEnv ∧
    extractNS dnsEnv ["a.example.com", "b.example.com", "a.example.com"] =
      ["ns3.example.net", "ns2.example.net", "ns1.example.net"] ∧
    (extractNS dnsEnv ["a.example.com", "b.example.com", "a.example.com"]).count
      "ns2.example.net" = 1 :=
  ⟨mapRangeOk_dnsEnv, by decide,
    (extractNS_nodup dnsEnv mapRangeOk_dnsEnv
      ["a.example.com", "b.example.com", "a.example.com"]).2 "ns2.example.net"
      ⟨"b.example.com", by decide, by decide⟩⟩

/-- C4, as stated, fails: a domain whose NS lookup hands back a record together with an error,
and whose CNAME lookup fails, contributes the record's host besides the sentinel, so the
strings returned are not those of the contribution the specification words. -/
theorem extractNS_partial_counterexample :
    (dnsEnv.LookupNS "partial.example.com").err = true ∧
    (dnsEnv.LookupCNAME "partial.example.com").err = true ∧
    nsContributionSpec dnsEnv "partial.example.com" = ["NS resolution failed"] ∧
    extractNS dnsEnv ["partial.example.com"] = ["ns9.example.net", "NS resolution failed"] ∧
    ¬ (∀ x, x ∈ extractNS dnsEnv ["partial.example.com"] ↔
      ∃ d ∈ ["partial.example.com"], x ∈ nsContributionSpec dnsEnv d) := by
  refine ⟨by decide, by decide, by decide, by decide, fun h => ?_⟩
  have h1 := (h "ns9.example.net").mp (by decide)
  revert h1
  decide

/-- C4, amended. With a map iteration that visits every key once, the strings returned by
`extractNS` are exactly those contributed by the domains, where a domain contributes the host
of every NS record its lookup handed back and, when that lookup reports an error, the CNAME
target if the CNAME lookup succeeds and the sentinel if it fails. For a domain whose failed NS
lookup hands back no record this is the contribution the specification words. -/
theorem extractNS_mem_iff (env : Env) (hrange : MapRangeOk env) (domains : List String) :
    (∀ x, x ∈ extractNS env domains ↔ ∃ d ∈ domains, x ∈ nsContribution env d) ∧
    (∀ d, ((env.LookupNS d).err = true → (env.LookupNS d).val = []) →
      nsContribution env d = nsContributionSpec env d) := by
  refine ⟨fun x => ?_, fun d hd => ?_⟩
  · rw [extractNS_eq, (hrange _).mem_iff, mem_foldl_extractNSStep]
    simp
  · unfold nsContribution nsContributionSpec
    cases h : (env.LookupNS d).err
    · simp
    · simp [hd h]

/-- C4 amended, at an alias, an unresolvable domain and a domain with NS records. -/
theorem extractNS_mem_iff_witness :
    MapRangeOk dnsEnv ∧
    (∀ x, x ∈ extractNS dnsEnv ["www.example.com", "gone.example.com", "a.example.com"] ↔
      ∃ d ∈ ["www.example.com", "gone.example.com", "a.example.com"],
        x ∈ nsContribution dnsEnv d) ∧
    nsContribution dnsEnv "www.example.com" = ["edge.example.net"] ∧
    nsContribution dnsEnv "gone.example.com" = ["NS resolution failed"] :=
  ⟨mapRangeOk_dnsEnv, (extractNS_mem_iff dnsEnv mapRangeOk_dnsEnv _).1, by decide, by decide⟩

/-- C5. With a `net.LookupIP` that returns either an error and no address or no error and at
least one address: for a hostname whose lookup fails `resolveHostname` returns exactly the
one sentinel, for every hostname the returned sequence is not empty, and on success it is the
string form of every resolved address, in resolver order. Whatever the lookup returns, the
result is the sentinel, when an error is reported, followed by those string forms. -/
theorem resolveHostname_spec (env : Env) (hip : LookupIPOk env) (hostname : String) :
    ((env.LookupIP hostname).err = true →
      resolveHostname env hostname = ["Host resolution failed"]) ∧
    resolveHostname env hostname ≠ [] ∧
    ((env.LookupIP hostname).err = false →
      resolveHostname env hostname = (env.LookupIP hostname).val.map env.ipString) ∧
    resolveHostname env hostname =
      (if (env.LookupIP hostname).err then ["Host resolution failed"] else []) ++
        (env.LookupIP hostname).val.map env.ipString := by
  obtain ⟨h1, h2⟩ := hip hostname
  refine ⟨?_, ?_, ?_, resolveHostname_eq env hostname⟩
  · intro he
    rw [resolveHostname_eq]
    simp [he, h1 he]
  · rw [resolveHostname_eq]
    cases he : (env.LookupIP hostname).err
    · simpa using h2 he
    · simp
  · intro he
    rw [resolveHostname_eq]
    simp [he]

/-- C5, at a host that does not resolve and at one that resolves to two addresses. -/
theorem resolveHostname_spec_witness :
    LookupIPOk dnsEnv ∧
    (dnsEnv.LookupIP "gone.example.com").err = true ∧
    resolveHostname dnsEnv "gone.example.com" = ["Host resolution failed"] ∧
    resolveHostname dnsEnv "o1.example.com" = ["192.0.2.1", "192.0.2.2"] :=
  ⟨lookupIPOk_dnsEnv, by decide,
    (resolveHostname_spec dnsEnv lookupIPOk_dnsEnv "gone.example.com").1 (by decide),
    ((resolveHostname_spec dnsEnv lookupIPOk_dnsEnv "o1.example.com").2.2.1 (by decide)).trans
      (by decide)⟩

/-! ## The enrichment task, field by field -/

theorem statsLoop_eq (c : CsvBuild) (data : List (Option Stats)) :
    statsLoop c data =
      if data.all Option.isSome = true then some (data.reduceOption.foldl applyStats c)
      else none := by
  induction data generalizing c with
  | nil => rfl
  | cons a t ih =>
    cases a with
    | none => simp [statsLoop]
    | some f =>
      have hstep : statsLoop c (some f :: t) = statsLoop (applyStats c f) t := rfl
      rw [hstep, ih]
      simp [List.reduceOption_cons_of_some]

theorem foldl_applyStats_getLast (c : CsvBuild) (data : List Stats) (h : data ≠ []) :
    data.foldl applyStats c = applyStats c (data.getLast h) := by
  induction data generalizing c with
  | nil => exact absurd rfl h
  | cons a t ih =>
    by_cases ht : t = []
    · subst ht
      rfl
    · rw [List.foldl_cons, ih (applyStats c a) ht, List.getLast_cons ht]
      rfl

theorem foldl_applyStats_keeps (c : CsvBuild) (data : List Stats) :
    (data.foldl applyStats c).ServiceName = c.ServiceName ∧
    (data.foldl applyStats c).ServiceID = c.ServiceID ∧
    (data.foldl applyStats c).Domains = c.Domains ∧
    (data.foldl applyStats c).NameServers = c.NameServers ∧
    (data.foldl applyStats c).Origin = c.Origin ∧
    (data.foldl applyStats c).IPsFound = c.IPsFound := by
  by_cases h : data = []
  · subst h
    exact ⟨rfl, rfl, rfl, rfl, rfl, rfl⟩
  · rw [foldl_applyStats_getLast c data h]
    exact ⟨rfl, rfl, rfl, rfl, rfl, rfl⟩

theorem ipsLoop_eq (l : List String) (c1 : CsvBuild) :
    l.foldl (fun c2 host => { c2 with IPsFound := c2.IPsFound ++ [host] }) c1 =
      { c1 with IPsFound := c1.IPsFound ++ l } := by
  induction l generalizing c1 with
  | nil => simp
  | cons a t ih => simp [List.foldl_cons, ih, List.append_assoc]

theorem frame_eq_iff (a b : CsvBuild) :
    frame a = frame b ↔
      a.ServiceName = b.ServiceName ∧ a.ServiceID = b.ServiceID ∧ a.Domains = b.Domains ∧
      a.NameServers = b.NameServers ∧ a.Requests = b.Requests ∧ a.HitRatio = b.HitRatio ∧
      a.Status400 = b.Status400 ∧ a.Status401 = b.Status401 ∧ a.Status403 = b.Status403 ∧
      a.Status404 = b.Status404 ∧ a.Status500 = b.Status500 ∧ a.Status501 = b.Status501 ∧
      a.Status502 = b.Status502 ∧ a.Status503 = b.Status503 ∧ a.Status504 = b.Status504 ∧
      a.Status505 = b.Status505 := by
  simp [frame]

theorem backendStep_eq (env : Env) (c : CsvBuild) (i : Backend) :
    backendStep env c i =
      if (i.Hostname != "") = true then
        match i.CreatedAt, i.UpdatedAt with
        | some created, some updated =>
          some { c with
            Origin := c.Origin ++ [i.Hostname]
            CreatedDate := created
            UpdatedDate := updated
            IPsFound := c.IPsFound ++ resolveHostname env i.Hostname }
        | _, _ => none
      else some c := by
  unfold backendStep
  split
  · cases i.CreatedAt <;> cases i.UpdatedAt <;> simp only [ipsLoop_eq]
  · rfl

theorem backendStep_fields (env : Env) (c c1 : CsvBuild) (i : Backend)
    (h : backendStep env c i = some c1) :
    c1.Origin = c.Origin ++ originHosts [i] ∧
    c1.IPsFound = c.IPsFound ++ (originHosts [i]).flatMap (resolveHostname env) ∧
    frame c1 = frame c := by
  rw [backendStep_eq] at h
  by_cases hh : (i.Hostname != "") = true
  · rw [if_pos hh] at h
    cases hc : i.CreatedAt <;> cases hu : i.UpdatedAt <;> simp [hc, hu] at h
    subst h
    refine ⟨?_, ?_, rfl⟩
    · simp [originHosts, hh]
    · simp [originHosts, hh]
  · rw [if_neg hh] at h
    simp only [Option.some.injEq] at h
    subst h
    refine ⟨?_, ?_, rfl⟩
    · simp [originHosts, hh]
    · simp [originHosts, hh]

theorem originHosts_cons (a : Backend) (t : List Backend) :
    originHosts (a :: t) = originHosts [a] ++ originHosts t := by
  simp [originHosts, List.filter_cons]
  split <;> simp

theorem backendLoop_fields (env : Env) (l : List Backend) (c c1 : CsvBuild)
    (h : backendLoop env c l = some c1) :
    c1.Origin = c.Origin ++ originHosts l ∧
    c1.IPsFound = c.IPsFound ++ (originHosts l).flatMap (resolveHostname env) ∧
    frame c1 = frame c := by
  induction l generalizing c with
  | nil =>
    simp only [backendLoop, Option.some.injEq] at h
    subst h
    simp [originHosts]
  | cons a t ih =>
    unfold backendLoop at h
    cases hs : backendStep env c a with
    | none => simp [hs] at h
    | some c2 =>
      simp only [hs] at h
      obtain ⟨h1, h2, h3⟩ := backendStep_fields env c c2 a hs
      obtain ⟨h4, h5, h6⟩ := ih c2 h
      refine ⟨?_, ?_, h6.trans h3⟩
      · rw [originHosts_cons a t, h4, h1, List.append_assoc]
      · rw [originHosts_cons a t, h5, h2, List.flatMap_append, List.append_assoc]

theorem backendLoop_some (env : Env) (l : List Backend) (c : CsvBuild) (h : BackendsSafe l) :
    ∃ c1, backendLoop env c l = some c1 := by
  induction l generalizing c with
  | nil => exact ⟨c, rfl⟩
  | cons a t ih =>
    have ht : BackendsSafe t := fun b hb => h b (List.mem_cons_of_mem _ hb)
    have ha := h a (List.mem_cons_self _ _)
    have hstep : ∃ c2, backendStep env c a = some c2 := by
      rw [backendStep_eq]
      by_cases hh : (a.Hostname != "") = true
      · rw [if_pos hh]
        have hne : a.Hostname ≠ "" := by simpa using hh
        obtain ⟨h1, h2⟩ := ha hne
        obtain ⟨x, hx⟩ := Option.isSome_iff_exists.mp h1
        obtain ⟨y, hy⟩ := Option.isSome_iff_exists.mp h2
        simp [hx, hy]
      · rw [if_neg hh]
        exact ⟨c, rfl⟩
    obtain ⟨c2, hc2⟩ := hstep
    obtain ⟨c3, hc3⟩ := ih c2 ht
    exact ⟨c3, by simp [backendLoop, hc2, hc3]⟩

theorem backendLoop_safe (env : Env) (l : List Backend) (c c1 : CsvBuild)
    (h : backendLoop env c l = some c1) : BackendsSafe l := by
  induction l generalizing c with
  | nil => exact fun b hb => absurd hb (List.not_mem_nil _)
  | cons a t ih =>
    unfold backendLoop at h
    cases hs : backendStep env c a with
    | none => simp [hs] at h
    | some c2 =>
      simp only [hs] at h
      intro b hb hne
      rcases List.mem_cons.mp hb with hb1 | hb1
      · subst hb1
        rw [backendStep_eq] at hs
        have hh : (b.Hostname != "") = true := by simpa using hne
        rw [if_pos hh] at hs
        cases hc : b.CreatedAt <;> cases hu : b.UpdatedAt <;> simp [hc, hu] at hs
        exact ⟨rfl, rfl⟩
      · exact ih c2 h b hb1 hne

theorem enrichBase_keeps (env : Env) (k : String) (v : Counter) :
    (enrichBase env k v).ServiceName = k ∧ (enrichBase env k v).ServiceID = v.id ∧
    (enrichBase env k v).Domains = extractDomainInfo env v.id ∧
    (enrichBase env k v).NameServers = extractNS env (extractDomainInfo env v.id) ∧
    (enrichBase env k v).Origin = [] ∧ (enrichBase env k v).IPsFound = [] := by
  by_cases hs : (env.GetStats v.id "two months ago" "day").err = false
  · have hk := foldl_applyStats_keeps
      ({ ServiceName := k, ServiceID := v.id, Domains := extractDomainInfo env v.id } : CsvBuild)
      (env.GetStats v.id "two months ago" "day").val.Data.reduceOption
    refine ⟨?_, ?_, ?_, ?_, ?_, ?_⟩ <;> simp [enrichBase, hs, hk]
  · refine ⟨?_, ?_, ?_, ?_, ?_, ?_⟩ <;> simp [enrichBase, hs]

theorem backendLoop_nil_of_length (env : Env) (c : CsvBuild) (l : List Backend) :
    (if l.length > 0 then backendLoop env c l else some c) = backendLoop env c l := by
  cases l with
  | nil => rfl
  | cons a t => simp

/-- The goroutine body in one piece: it ends the process when the backend listing fails or a
successful statistics answer holds a nil entry, and otherwise runs the loop over the backends
on the record built so far. -/
theorem enrich_eq (env : Env) (k : String) (v : Counter) :
    enrich env k v =
      if (env.ListBackends v.id v.number).err = true then none
      else if (env.GetStats v.id "two months ago" "day").err = false ∧
          (env.GetStats v.id "two months ago" "day").val.Data.all Option.isSome = false then none
      else backendLoop env (enrichBase env k v) (env.ListBackends v.id v.number).val := by
  unfold enrich enrichBase extractStatsInfo
  simp only [backendLoop_nil_of_length]
  cases hb : (env.ListBackends v.id v.number).err
  · cases hs : (env.GetStats v.id "two months ago" "day").err
    · simp only [Bool.false_eq_true, if_false, if_true, statsLoop_eq, true_and]
      cases ha : (env.GetStats v.id "two months ago" "day").val.Data.all Option.isSome
      · simp only [Bool.false_eq_true, if_false, if_true]
      · simp only [if_true, Bool.true_eq_false, if_false]
    · simp
  · simp

theorem enrich_none (env : Env) (k : String) (v : Counter)
    (hb : (env.ListBackends v.id v.number).err = true) : enrich env k v = none := by
  rw [enrich_eq]
  simp [hb]

theorem all_isSome_of_statsSafe (env : Env) (id : String) (hs : StatsSafe env id)
    (he : (env.GetStats id "two months ago" "day").err = false) :
    (env.GetStats id "two months ago" "day").val.Data.all Option.isSome = true := by
  rw [List.all_eq_true]
  exact hs he

/-- The goroutine body yields a record when the backend listing succeeds and no nil pointer
is met. -/
theorem enrich_some_of_safe (env : Env) (k : String) (v : Counter)
    (hb : (env.ListBackends v.id v.number).err = false) (hs : StatsSafe env v.id)
    (hbs : BackendsSafe (env.ListBackends v.id v.number).val) :
    ∃ r, enrich env k v = some r := by
  rw [enrich_eq]
  simp only [hb, Bool.false_eq_true, if_false]
  have hno : ¬ ((env.GetStats v.id "two months ago" "day").err = false ∧
      (env.GetStats v.id "two months ago" "day").val.Data.all Option.isSome = false) := by
    rintro ⟨h1, h2⟩
    rw [all_isSome_of_statsSafe env v.id hs h1] at h2
    exact Bool.noConfusion h2
  rw [if_neg hno]
  exact backendLoop_some env _ _ hbs

/-- Every record the goroutine body yields comes from a successful backend listing, and has
the origins, the addresses and the other fields described. -/
theorem enrich_fields (env : Env) (k : String) (v : Counter) (r : CsvBuild)
    (h : enrich env k v = some r) :
    (env.ListBackends v.id v.number).err = false ∧
    r.Origin = originHosts (env.ListBackends v.id v.number).val ∧
    r.IPsFound =
      (originHosts (env.ListBackends v.id v.number).val).flatMap (resolveHostname env) ∧
    frame r = frame (enrichBase env k v) := by
  rw [enrich_eq] at h
  cases hb : (env.ListBackends v.id v.number).err
  · simp only [hb, Bool.false_eq_true, if_false] at h
    split at h
    · exact absurd h (by simp)
    · obtain ⟨h1, h2, h3⟩ := backendLoop_fields env _ _ _ h
      refine ⟨rfl, ?_, ?_, h3⟩
      · rw [h1, (enrichBase_keeps env k v).2.2.2.2.1, List.nil_append]
      · rw [h2, (enrichBase_keeps env k v).2.2.2.2.2, List.nil_append]
  · simp [hb] at h

theorem enrichBase_of_stats_err (env : Env) (k : String) (v : Counter)
    (hs : (env.GetStats v.id "two months ago" "day").err = true) :
    enrichBase env k v =
      { ServiceName := k, ServiceID := v.id, Domains := extractDomainInfo env v.id,
        NameServers := extractNS env (extractDomainInfo env v.id) } := by
  simp [enrichBase, hs]

theorem enrichBase_of_stats_last (env : Env) (k : String) (v : Counter)
    (hs : (env.GetStats v.id "two months ago" "day").err = false)
    (hd : (env.GetStats v.id "two months ago" "day").val.Data.reduceOption ≠ []) :
    enrichBase env k v =
      { applyStats
          { ServiceName := k, ServiceID := v.id, Domains := extractDomainInfo env v.id }
          ((env.GetStats v.id "two months ago" "day").val.Data.reduceOption.getLast hd) with
        NameServers := extractNS env (extractDomainInfo env v.id) } := by
  simp [enrichBase, hs, foldl_applyStats_getLast _ _ hd]

theorem statsSafe_of_err (env : Env) (id : String)
    (hs : (env.GetStats id "two months ago" "day").err = true) : StatsSafe env id := by
  intro h
  rw [hs] at h
  exact Bool.noConfusion h

theorem mem_originHosts (l : List Backend) (h : String) :
    h ∈ originHosts l ↔ (∃ b ∈ l, b.Hostname = h) ∧ h ≠ "" := by
  simp [originHosts]

/-! ## Claims on the enrichment task -/

/-- C6. The value of `extractDomainInfo` is the sentinel, when the listing reports an error,
followed by the names of the domains handed back, in listing order. So when the domain listing
fails (the client then hands back no domain) it is exactly the one sentinel, and the task is
not failed by it: whenever the backend listing succeeds and no nil pointer is met, the task
produces its record, with the sentinel as its domains. When the listing succeeds the value is
the names of the listed domains in listing order and nothing else. -/
theorem extractDomainInfo_spec (env : Env) (id : String) :
    extractDomainInfo env id =
      (if (env.ListServiceDomains id).err then ["No Domains Found"] else []) ++
        (env.ListServiceDomains id).val.map Domain.Name ∧
    (((env.ListServiceDomains id).err = true ∧ (env.ListServiceDomains id).val = []) →
      extractDomainInfo env id = ["No Domains Found"] ∧
      ∀ (k : String) (n : Int), (env.ListBackends id n).err = false → StatsSafe env id →
        BackendsSafe (env.ListBackends id n).val →
        ∃ r, enrich env k ⟨id, n⟩ = some r ∧ r.Domains = ["No Domains Found"]) ∧
    ((env.ListServiceDomains id).err = false →
      extractDomainInfo env id = (env.ListServiceDomains id).val.map Domain.Name) := by
  refine ⟨extractDomainInfo_eq env id, ?_, ?_⟩
  · rintro ⟨he, hv⟩
    have hd : extractDomainInfo env id = ["No Domains Found"] := by
      rw [extractDomainInfo_eq]
      simp [he, hv]
    refine ⟨hd, fun k n hb hs hbs => ?_⟩
    obtain ⟨r, hr⟩ := enrich_some_of_safe env k ⟨id, n⟩ hb hs hbs
    obtain ⟨-, -, -, hf⟩ := enrich_fields env k ⟨id, n⟩ r hr
    refine ⟨r, hr, ?_⟩
    rw [((frame_eq_iff _ _).mp hf).2.2.1, (enrichBase_keeps env k ⟨id, n⟩).2.2.1]
    exact hd
  · intro he
    rw [extractDomainInfo_eq]
    simp [he]

/-- C6, at a service whose domain listing fails and at one whose listing succeeds. -/
theorem extractDomainInfo_spec_witness :
    (svcEnv.ListServiceDomains "id-c").err = true ∧
    extractDomainInfo svcEnv "id-c" = ["No Domains Found"] ∧
    (∃ r, enrich svcEnv "svc-c" ⟨"id-c", 1⟩ = some r ∧ r.Domains = ["No Domains Found"]) ∧
    (svcEnv.ListServiceDomains "id-a").err = false ∧
    extractDomainInfo svcEnv "id-a" = ["a.example.com", "b.example.com"] :=
  ⟨by decide, ((extractDomainInfo_spec svcEnv "id-c").2.1 ⟨by decide, by decide⟩).1,
    ((extractDomainInfo_spec svcEnv "id-c").2.1 ⟨by decide, by decide⟩).2 "svc-c" 1 (by decide)
      (statsSafe_of_err svcEnv "id-c" (by decide)) (by unfold BackendsSafe; decide),
    by decide,
    ((extractDomainInfo_spec svcEnv "id-a").2.2 (by decide)).trans (by decide)⟩

/-- C7. When the backend listing of a service succeeds and its statistics query fails: if no
backend with a hostname lacks a timestamp, the enrichment task produces the record of that
service with every traffic field at zero, and its name, ID, domains, name servers and origins
are those produced under any other answer of the statistics query without a nil entry; and
whenever the task produces a record under another answer of the statistics query, it produces
one under the failure, with the same name, ID, domains, name servers and origins. -/
theorem enrich_stats_failure (env : Env) (k : String) (v : Counter)
    (hb : (env.ListBackends v.id v.number).err = false)
    (hs : (env.GetStats v.id "two months ago" "day").err = true) :
    (BackendsSafe (env.ListBackends v.id v.number).val →
      ∃ r, enrich env k v = some r ∧ r.ServiceName = k ∧ r.ServiceID = v.id ∧
        r.Requests = 0 ∧ r.HitRatio = ⟨0⟩ ∧
        r.Status400 = 0 ∧ r.Status401 = 0 ∧ r.Status403 = 0 ∧ r.Status404 = 0 ∧
        r.Status500 = 0 ∧ r.Status501 = 0 ∧ r.Status502 = 0 ∧ r.Status503 = 0 ∧
        r.Status504 = 0 ∧ r.Status505 = 0 ∧
        ∀ g : String → String → String → Result StatsResponse,
          StatsSafe { env with GetStats := g } v.id →
          ∃ r', enrich { env with GetStats := g } k v = some r' ∧
            r'.ServiceName = r.ServiceName ∧ r'.ServiceID = r.ServiceID ∧
            r'.Domains = r.Domains ∧ r'.NameServers = r.NameServers ∧ r'.Origin = r.Origin) ∧
    (∀ (g : String → String → String → Result StatsResponse) (r' : CsvBuild),
      enrich { env with GetStats := g } k v = some r' →
      ∃ r, enrich env k v = some r ∧
        r.ServiceName = r'.ServiceName ∧ r.ServiceID = r'.ServiceID ∧
        r.Domains = r'.Domains ∧ r.NameServers = r'.NameServers ∧ r.Origin = r'.Origin) := by
  have key : ∀ (g : String → String → String → Result StatsResponse) (r r' : CsvBuild),
      enrich env k v = some r → enrich { env with GetStats := g } k v = some r' →
      r'.ServiceName = r.ServiceName ∧ r'.ServiceID = r.ServiceID ∧
        r'.Domains = r.Domains ∧ r'.NameServers = r.NameServers ∧ r'.Origin = r.Origin := by
    intro g r r' hr hr'
    obtain ⟨-, ho, -, hf⟩ := enrich_fields env k v r hr
    obtain ⟨-, ho', -, hf'⟩ := enrich_fields { env with GetStats := g } k v r' hr'
    have hk := enrichBase_keeps env k v
    have hk' := enrichBase_keeps { env with GetStats := g } k v
    rw [frame_eq_iff] at hf hf'
    refine ⟨?_, ?_, ?_, ?_, ?_⟩
    · rw [hf'.1, hk'.1, hf.1, hk.1]
    · rw [hf'.2.1, hk'.2.1, hf.2.1, hk.2.1]
    · rw [hf'.2.2.1, hk'.2.2.1, hf.2.2.1, hk.2.2.1]
      rfl
    · rw [hf'.2.2.2.1, hk'.2.2.2.1, hf.2.2.2.1, hk.2.2.2.1]
      rfl
    · rw [ho', ho]
  constructor
  · intro hbs
    obtain ⟨r, hr⟩ := enrich_some_of_safe env k v hb (statsSafe_of_err env v.id hs) hbs
    obtain ⟨-, -, -, hf⟩ := enrich_fields env k v r hr
    rw [enrichBase_of_stats_err env k v hs, frame_eq_iff] at hf
    obtain ⟨h1, h2, -, -, h5, h6, h7, h8, h9, h10, h11, h12, h13, h14, h15, h16⟩ := hf
    refine ⟨r, hr, h1, h2, h5, h6, h7, h8, h9, h10, h11, h12, h13, h14, h15, h16,
      fun g hg => ?_⟩
    obtain ⟨r', hr'⟩ := enrich_some_of_safe { env with GetStats := g } k v hb hg hbs
    exact ⟨r', hr', key g r r' hr hr'⟩
  · intro g r' hr'
    have hbs : BackendsSafe (env.ListBackends v.id v.number).val := by
      rw [enrich_eq] at hr'
      have hb' : ({ env with GetStats := g } : Env).ListBackends v.id v.number =
          env.ListBackends v.id v.number := rfl
      simp only [hb', hb, Bool.false_eq_true, if_false] at hr'
      split at hr'
      · exact absurd hr' (by simp)
      · exact backendLoop_safe _ _ _ _ hr'
    obtain ⟨r, hr⟩ := enrich_some_of_safe env k v hb (statsSafe_of_err env v.id hs) hbs
    obtain ⟨h1, h2, h3, h4, h5⟩ := key g r r' hr hr'
    exact ⟨r, hr, h1.symm, h2.symm, h3.symm, h4.symm, h5.symm⟩

/-- C7, at the service `id-c`, whose statistics query fails. -/
theorem enrich_stats_failure_witness :
    (svcEnv.ListBackends "id-c" 1).err = false ∧
    (svcEnv.GetStats "id-c" "two months ago" "day").err = true ∧
    BackendsSafe (svcEnv.ListBackends "id-c" 1).val ∧
    ∃ r, enrich svcEnv "svc-c" ⟨"id-c", 1⟩ = some r ∧ r.Requests = 0 ∧ r.Status503 = 0 :=
  ⟨by decide, by decide, by unfold BackendsSafe; decide,
    ((enrich_stats_failure svcEnv "svc-c" ⟨"id-c", 1⟩ (by decide) (by decide)).1
      (by unfold BackendsSafe; decide)).imp
      (fun _ h => ⟨h.1, h.2.2.2.1, h.2.2.2.2.2.2.2.2.2.2.2.2.1⟩)⟩

/-- C9. With a `net.LookupIP` that returns either an error and no address or no error and at
least one address: when the backend listing of a service succeeds and no nil pointer is met,
the task produces a record whose `Origin` is the listed backend hostnames with the empty ones
removed, in listing order, and whose `IPsFound` is the concatenation, in that order, of
`resolveHostname` applied to each of them. So a service with a non-empty backend hostname has a
non-empty `Origin`, every entry of `Origin` adds at least one entry to `IPsFound`, and no empty
hostname is in `Origin`. -/
theorem enrich_origin_spec (env : Env) (hip : LookupIPOk env) (k : String) (v : Counter)
    (hb : (env.ListBackends v.id v.number).err = false) (hs : StatsSafe env v.id)
    (hbs : BackendsSafe (env.ListBackends v.id v.number).val) :
    ∃ r, enrich env k v = some r ∧
      r.Origin =
        ((env.ListBackends v.id v.number).val.map Backend.Hostname).filter (fun h => h != "") ∧
      r.IPsFound = r.Origin.flatMap (resolveHostname env) ∧
      ((∃ b ∈ (env.ListBackends v.id v.number).val, b.Hostname ≠ "") → r.Origin ≠ []) ∧
      (∀ h ∈ r.Origin, h ≠ "") ∧
      (∀ h ∈ r.Origin, resolveHostname env h ≠ []) := by
  obtain ⟨r, hr⟩ := enrich_some_of_safe env k v hb hs hbs
  obtain ⟨-, ho, hi, -⟩ := enrich_fields env k v r hr
  refine ⟨r, hr, ho, by rw [hi, ho], ?_, ?_, ?_⟩
  · rintro ⟨b, hbl, hne⟩ hnil
    have hmem : b.Hostname ∈ r.Origin := by
      rw [ho, mem_originHosts]
      exact ⟨⟨b, hbl, rfl⟩, hne⟩
    rw [hnil] at hmem
    exact absurd hmem (List.not_mem_nil _)
  · intro h hh
    rw [ho, mem_originHosts] at hh
    exact hh.2
  · intro h _ hnil
    rw [resolveHostname_eq] at hnil
    obtain ⟨h1, h2⟩ := hip h
    cases he : (env.LookupIP h).err
    · simp [he] at hnil
      exact h2 he hnil
    · simp [he] at hnil

/-- C9, at the service `id-a`: one backend resolves, one has no hostname, one does not
resolve. -/
theorem enrich_origin_spec_witness :
    LookupIPOk svcEnv ∧ (svcEnv.ListBackends "id-a" 1).err = false ∧
    ∃ r, enrich svcEnv "svc-a" ⟨"id-a", 1⟩ = some r ∧
      r.Origin = ["o1.example.com", "gone.example.com"] ∧
      r.IPsFound = ["192.0.2.1", "192.0.2.2", "Host resolution failed"] :=
  ⟨lookupIPOk_svcEnv, by decide,
    (enrich_origin_spec svcEnv lookupIPOk_svcEnv "svc-a" ⟨"id-a", 1⟩ (by decide)
      (by unfold StatsSafe; decide) (by unfold BackendsSafe; decide)).imp
      (fun _ h => ⟨h.1, h.2.1.trans (by decide),
        h.2.2.1.trans (h.2.1 ▸ by decide)⟩)⟩

/-- Every traffic field but one of a record is the same-named field of the last entry of a
successful, non-empty statistics answer; `Status500` is that entry's `Status400`. -/
theorem enrich_traffic_last (env : Env) (k : String) (v : Counter) (r : CsvBuild)
    (hr : enrich env k v = some r)
    (hs : (env.GetStats v.id "two months ago" "day").err = false)
    (hd : (env.GetStats v.id "two months ago" "day").val.Data.reduceOption ≠ []) :
    r.Requests =
      ((env.GetStats v.id "two months ago" "day").val.Data.reduceOption.getLast hd).Requests ∧
    r.HitRatio =
      ((env.GetStats v.id "two months ago" "day").val.Data.reduceOption.getLast hd).HitRatio ∧
    [r.Status400, r.Status401, r.Status403, r.Status404, r.Status500, r.Status501,
        r.Status502, r.Status503, r.Status504, r.Status505] =
      [((env.GetStats v.id "two months ago" "day").val.Data.reduceOption.getLast hd).Status400,
       ((env.GetStats v.id "two months ago" "day").val.Data.reduceOption.getLast hd).Status401,
       ((env.GetStats v.id "two months ago" "day").val.Data.reduceOption.getLast hd).Status403,
       ((env.GetStats v.id "two months ago" "day").val.Data.reduceOption.getLast hd).Status404,
       ((env.GetStats v.id "two months ago" "day").val.Data.reduceOption.getLast hd).Status400,
       ((env.GetStats v.id "two months ago" "day").val.Data.reduceOption.getLast hd).Status501,
       ((env.GetStats v.id "two months ago" "day").val.Data.reduceOption.getLast hd).Status502,
       ((env.GetStats v.id "two months ago" "day").val.Data.reduceOption.getLast hd).Status503,
       ((env.GetStats v.id "two months ago" "day").val.Data.reduceOption.getLast hd).Status504,
       ((env.GetStats v.id "two months ago" "day").val.Data.reduceOption.getLast hd).Status505] := by
  obtain ⟨-, -, -, hf⟩ := enrich_fields env k v r hr
  rw [enrichBase_of_stats_last env k v hs hd] at hf
  simp only [frame, Prod.mk.injEq] at hf
  exact ⟨hf.2.2.2.2.1, hf.2.2.2.2.2.1, hf.2.2.2.2.2.2⟩

/-- When the statistics answer holds no entry, every traffic field of a record stays zero. -/
theorem enrich_traffic_empty (env : Env) (k : String) (v : Counter) (r : CsvBuild)
    (hr : enrich env k v = some r)
    (hd : (env.GetStats v.id "two months ago" "day").val.Data = []) :
    r.Requests = 0 ∧ r.HitRatio = ⟨0⟩ ∧
    [r.Status400, r.Status401, r.Status403, r.Status404, r.Status500, r.Status501,
        r.Status502, r.Status503, r.Status504, r.Status505] = [0, 0, 0, 0, 0, 0, 0, 0, 0, 0] := by
  obtain ⟨-, -, -, hf⟩ := enrich_fields env k v r hr
  have hbase : enrichBase env k v =
      { ServiceName := k, ServiceID := v.id, Domains := extractDomainInfo env v.id,
        NameServers := extractNS env (extractDomainInfo env v.id) } := by
    cases hs : (env.GetStats v.id "two months ago" "day").err
    · simp [enrichBase, hs, hd]
    · exact enrichBase_of_stats_err env k v hs
  rw [hbase] at hf
  simp only [frame, Prod.mk.injEq] at hf
  exact ⟨hf.2.2.2.2.1, hf.2.2.2.2.2.1, hf.2.2.2.2.2.2⟩

/-- C10, at the service `id-a`, whose statistics query succeeds: the last entry of the data
sequence has `Status400 = 1` and `Status500 = 2`, and the record gets `Status500 = 1`; the
other traffic fields are those of the last entry. -/
theorem enrich_status500_is_status400 :
    (svcEnv.ListBackends "id-a" 1).err = false ∧
    (svcEnv.GetStats "id-a" "two months ago" "day").err = false ∧
    (svcEnv.GetStats "id-a" "two months ago" "day").val.Data.getLast? =
      some (some { Requests := 500, Status400 := 1, Status500 := 2, Status503 := 4 }) ∧
    (enrich svcEnv "svc-a" ⟨"id-a", 1⟩).map CsvBuild.Status500 = some 1 ∧
    (enrich svcEnv "svc-a" ⟨"id-a", 1⟩).map CsvBuild.Status400 = some 1 ∧
    (enrich svcEnv "svc-a" ⟨"id-a", 1⟩).map CsvBuild.Requests = some 500 ∧
    (enrich svcEnv "svc-a" ⟨"id-a", 1⟩).map CsvBuild.Status503 = some 4 := by
  decide

/-! ## The fan-out: what every reachable state satisfies -/

theorem set_split {α : Type} (l : List α) (i : Nat) (t : α) (h : l[i]? = some t) :
    ∃ pre post, l = pre ++ t :: post ∧ ∀ t1, l.set i t1 = pre ++ t1 :: post := by
  induction l generalizing i with
  | nil => simp at h
  | cons a l ih =>
    cases i with
    | zero =>
      simp only [List.getElem?_cons_zero, Option.some.injEq] at h
      subst h
      exact ⟨[], l, rfl, fun _ => rfl⟩
    | succ i =>
      simp only [List.getElem?_cons_succ] at h
      obtain ⟨pre, post, h1, h2⟩ := ih i h
      refine ⟨a :: pre, post, ?_, fun t1 => ?_⟩
      · rw [List.cons_append, ← h1]
      · rw [List.set_cons_succ, h2 t1, List.cons_append]

theorem eraseIdx_split {α : Type} (l : List α) (j : Nat) (e : α) (h : l[j]? = some e) :
    ∃ pre post, l = pre ++ e :: post ∧ l.eraseIdx j = pre ++ post := by
  induction l generalizing j with
  | nil => simp at h
  | cons a l ih =>
    cases j with
    | zero =>
      simp only [List.getElem?_cons_zero, Option.some.injEq] at h
      subst h
      exact ⟨[], l, rfl, rfl⟩
    | succ j =>
      simp only [List.getElem?_cons_succ] at h
      obtain ⟨pre, post, h1, h2⟩ := ih j h
      refine ⟨a :: pre, post, ?_, ?_⟩
      · rw [List.cons_append, ← h1]
      · rw [List.eraseIdx_cons_succ, h2, List.cons_append]

theorem collect_append (env : Env) (order : List (String × Counter)) (s : List CsvBuild)
    (e : String × Counter) (r : CsvBuild) (hs : collect env order = some s)
    (hr : enrich env e.1 e.2 = some r) : collect env (order ++ [e]) = some (s ++ [r]) := by
  induction order generalizing s with
  | nil =>
    simp only [collect, Option.some.injEq] at hs
    subst hs
    obtain ⟨k, v⟩ := e
    simp [collect, hr]
  | cons a t ih =>
    obtain ⟨k, v⟩ := a
    simp only [List.cons_append, collect] at hs ⊢
    cases h1 : enrich env k v with
    | none => simp [h1] at hs
    | some r1 =>
      cases h2 : collect env t with
      | none => simp [h1, h2] at hs
      | some s1 =>
        simp only [h1, h2, Option.some.injEq] at hs
        subst hs
        simp [ih s1 h2]

theorem collect_names (env : Env) (l : List (String × Counter)) (s : List CsvBuild)
    (h : collect env l = some s) :
    s.map (fun r => (r.ServiceName, r.ServiceID)) = l.map (fun kv => (kv.1, kv.2.id)) := by
  induction l generalizing s with
  | nil =>
    simp only [collect, Option.some.injEq] at h
    subst h
    rfl
  | cons a t ih =>
    obtain ⟨k, v⟩ := a
    simp only [collect] at h
    cases h1 : enrich env k v with
    | none => simp [h1] at h
    | some r1 =>
      cases h2 : collect env t with
      | none => simp [h1, h2] at h
      | some s1 =>
        simp only [h1, h2, Option.some.injEq] at h
        subst h
        obtain ⟨-, -, -, hf⟩ := enrich_fields env k v r1 h1
        have hk := enrichBase_keeps env k v
        rw [frame_eq_iff] at hf
        simp [ih s1 h2, hf.1, hf.2.1, hk.1, hk.2.1]

theorem collect_none_of_mem (env : Env) (l : List (String × Counter))
    (h : ∃ kv ∈ l, enrich env kv.1 kv.2 = none) : collect env l = none := by
  induction l with
  | nil =>
    obtain ⟨kv, hkv, -⟩ := h
    exact absurd hkv (List.not_mem_nil _)
  | cons a t ih =>
    obtain ⟨k, v⟩ := a
    cases h1 : enrich env k v with
    | none => simp [collect, h1]
    | some r =>
      obtain ⟨x, hx, hxe⟩ := h
      rcases List.mem_cons.mp hx with hx1 | hx1
      · subst hx1
        rw [h1] at hxe
        exact absurd hxe (by simp)
      · simp [collect, h1, ih ⟨x, hx1, hxe⟩]

theorem collect_some_of_all (env : Env) (l : List (String × Counter))
    (h : ∀ kv ∈ l, ∃ r, enrich env kv.1 kv.2 = some r) : ∃ s, collect env l = some s := by
  induction l with
  | nil => exact ⟨[], rfl⟩
  | cons a t ih =>
    obtain ⟨k, v⟩ := a
    obtain ⟨r, hr⟩ := h (k, v) (List.mem_cons_self _ _)
    obtain ⟨s, hs⟩ := ih (fun x hx => h x (List.mem_cons_of_mem _ hx))
    exact ⟨r :: s, by simp [collect, hr, hs]⟩

theorem mem_enabled_launch (σ : Fan) (j : Nat) :
    Action.launch j ∈ enabled σ ↔ j < σ.todo.length := by
  unfold enabled
  simp only [List.mem_append, List.mem_map, List.mem_range, List.mem_filter]
  constructor
  · rintro ((⟨a, ha, he⟩ | ⟨a, -, he⟩) | h)
    · cases he
      exact ha
    · cases he
    · split at h <;> simp at h
  · intro h
    exact Or.inl (Or.inl ⟨j, h, rfl⟩)

theorem mem_enabled_task (σ : Fan) (i : Nat) :
    Action.task i ∈ enabled σ ↔ ∃ t, σ.tasks[i]? = some t ∧ runnable σ.mu t = true := by
  unfold enabled
  simp only [List.mem_append, List.mem_map, List.mem_range, List.mem_filter]
  constructor
  · rintro ((⟨a, -, he⟩ | ⟨a, ⟨-, ha⟩, he⟩) | h)
    · cases he
    · cases he
      cases ht : σ.tasks[i]? with
      | none => simp [ht] at ha
      | some t =>
        simp only [ht] at ha
        exact ⟨t, rfl, ha⟩
    · split at h <;> simp at h
  · rintro ⟨t, ht, hr⟩
    refine Or.inl (Or.inr ⟨i, ⟨?_, ?_⟩, rfl⟩)
    · by_contra hlt
      rw [List.getElem?_eq_none (Nat.le_of_not_lt hlt)] at ht
      cases ht
    · simp [ht, hr]

theorem mem_enabled_wait (σ : Fan) :
    Action.wait ∈ enabled σ ↔ σ.todo = [] ∧ σ.wg = 0 := by
  unfold enabled
  simp only [List.mem_append, List.mem_map, List.mem_range, List.mem_filter]
  constructor
  · rintro ((⟨a, -, he⟩ | ⟨a, -, he⟩) | h)
    · cases he
    · cases he
    · by_cases hc : σ.todo = [] ∧ σ.wg = 0
      · exact hc
      · simp [hc] at h
  · intro h
    exact Or.inr (by simp [h])

theorem crit_unique (pre post : List Task) (t : Task) (mu : Bool)
    (h : (pre ++ t :: post).countP crit = if mu then 1 else 0) (ht : crit t = true) :
    ∀ u, u ∈ pre ∨ u ∈ post → crit u = false := by
  have hle : (pre ++ t :: post).countP crit ≤ 1 := by
    rw [h]
    split <;> simp
  simp only [List.countP_append, List.countP_cons, ht, if_true] at hle
  have h1 : pre.countP crit = 0 := by omega
  have h2 : post.countP crit = 0 := by omega
  rw [List.countP_eq_zero] at h1 h2
  intro u hu
  rcases hu with hu | hu
  · simpa using h1 u hu
  · simpa using h2 u hu

theorem crit_of_loaded (u : Task) (h : u.pc = .loaded) : crit u = true := by
  simp [crit, h]

/-- A step of one goroutine keeps what holds in every reachable state, when it keeps the
entry, adjusts the counter and the mutex with the goroutine's standing, and either leaves `s`
alone or, holding the mutex, writes `s` with its record appended. -/
theorem inv_update (env : Env) (serviceInfo todo : List (String × Counter))
    (pre post : List Task) (t t1 : Task) (mu mu1 : Bool) (wg wg1 : Nat) (s s1 : List CsvBuild)
    (hinv : Inv env serviceInfo
      { todo := todo, tasks := pre ++ t :: post, mu := mu, wg := wg, s := s })
    (hentry : entry t1 = entry t)
    (hwg : wg1 + (if live t = true then 1 else 0) = wg + (if live t1 = true then 1 else 0))
    (hmu : (if mu1 = true then 1 else 0) + (if crit t = true then 1 else 0) =
      (if mu = true then 1 else 0) + (if crit t1 = true then 1 else 0))
    (hs : (appended t1 = appended t ∧ s1 = s) ∨
      (appended t = false ∧ appended t1 = true ∧ crit t = true ∧
        s1 = s ++ [t1.csv_build] ∧ enrich env t1.k t1.v = some t1.csv_build))
    (hold : t1.pc = .loaded → t1.old = s1)
    (hrec : t1.pc ≠ .body → enrich env t1.k t1.v = some t1.csv_build) :
    Inv env serviceInfo
      { todo := todo, tasks := pre ++ t1 :: post, mu := mu1, wg := wg1, s := s1 } := by
  obtain ⟨h1, h2, ⟨order, h3, h4⟩, h5, h6, h7⟩ := hinv
  simp only at h1 h2 h3 h4 h5 h6 h7
  refine ⟨?_, ?_, ?_, ?_, ?_, ?_⟩
  · show wg1 = (pre ++ t1 :: post).countP live
    simp only [List.countP_append, List.countP_cons] at h1 ⊢
    omega
  · show (pre ++ t1 :: post).countP crit = if mu1 = true then 1 else 0
    simp only [List.countP_append, List.countP_cons] at h2 ⊢
    omega
  · show ∃ order : List (String × Counter),
      order.Perm (((pre ++ t1 :: post).filter appended).map entry) ∧ collect env order = some s1
    rcases hs with ⟨ha, hs1⟩ | ⟨ha, ha1, -, hs1, hr⟩
    · refine ⟨order, ?_, hs1 ▸ h4⟩
      have heq : ((pre ++ t1 :: post).filter appended).map entry =
          ((pre ++ t :: post).filter appended).map entry := by
        simp only [List.filter_append, List.filter_cons, ha, List.map_append]
        cases appended t <;> simp [hentry]
      rw [heq]
      exact h3
    · refine ⟨order ++ [entry t1], ?_, ?_⟩
      · have hl : ((pre ++ t :: post).filter appended).map entry =
            (pre.filter appended).map entry ++ (post.filter appended).map entry := by
          simp [List.filter_append, List.filter_cons, ha]
        have hr1 : ((pre ++ t1 :: post).filter appended).map entry =
            (pre.filter appended).map entry ++ entry t1 :: (post.filter appended).map entry := by
          simp [List.filter_append, List.filter_cons, ha1]
        rw [hr1]
        rw [hl] at h3
        exact (h3.append_right [entry t1]).trans
          ((List.perm_append_singleton _ _).trans List.perm_middle.symm)
      · rw [hs1]
        exact collect_append env order s (entry t1) t1.csv_build h4 hr
  · show ∀ u ∈ pre ++ t1 :: post, u.pc = .loaded → u.old = s1
    intro u hu hpc
    rw [List.mem_append, List.mem_cons] at hu
    have hother : u ∈ pre ∨ u ∈ post → u.old = s1 := by
      intro hu1
      have hus : u.old = s := h5 u (by
        rw [List.mem_append, List.mem_cons]
        tauto) hpc
      rcases hs with ⟨-, hs1⟩ | ⟨-, -, hc, -, -⟩
      · rw [hs1, hus]
      · have := crit_unique pre post t mu h2 hc u hu1
        rw [crit_of_loaded u hpc] at this
        exact Bool.noConfusion this
    rcases hu with hu | hu | hu
    · exact hother (Or.inl hu)
    · subst hu
      exact hold hpc
    · exact hother (Or.inr hu)
  · show ∀ u ∈ pre ++ t1 :: post, u.pc ≠ .body → enrich env u.k u.v = some u.csv_build
    intro u hu hpc
    rw [List.mem_append, List.mem_cons] at hu
    rcases hu with hu | hu | hu
    · exact h6 u (by simp [hu]) hpc
    · subst hu
      exact hrec hpc
    · exact h6 u (by simp [hu]) hpc
  · show (todo ++ (pre ++ t1 :: post).map entry).Perm serviceInfo
    have heq : (pre ++ t1 :: post).map entry = (pre ++ t :: post).map entry := by
      simp [hentry]
    rw [heq]
    exact h7

theorem weight_update (todo : List (String × Counter)) (pre post : List Task) (t t1 : Task)
    (mu mu1 : Bool) (wg wg1 : Nat) (s s1 : List CsvBuild) (h : cost t1.pc < cost t.pc) :
    weight { todo := todo, tasks := pre ++ t1 :: post, mu := mu1, wg := wg1, s := s1 } <
      weight { todo := todo, tasks := pre ++ t :: post, mu := mu, wg := wg, s := s } := by
  simp only [weight, List.map_append, List.map_cons, List.sum_append, List.sum_cons]
  omega

/-- A step of a goroutine that can move keeps what holds in every reachable state and brings
the fan-out one step closer to its end. -/
theorem inv_stepTask (env : Env) (serviceInfo : List (String × Counter)) (σ σ1 : Fan)
    (i : Nat) (t : Task) (hinv : Inv env serviceInfo σ) (ht : σ.tasks[i]? = some t)
    (hrun : runnable σ.mu t = true) (hstep : stepTask env σ i t = .going σ1) :
    Inv env serviceInfo σ1 ∧ weight σ1 < weight σ := by
  obtain ⟨todo, tasks, mu, wg, s⟩ := σ
  simp only at ht hrun
  obtain ⟨pre, post, hsp, hset⟩ := set_split tasks i t ht
  subst hsp
  have hwgeq := hinv.wg_eq
  have hmueq := hinv.mu_eq
  have holdeq := hinv.old_eq t (by simp)
  have hreceq := hinv.rec_eq t (by simp)
  simp only at hwgeq hmueq holdeq hreceq
  unfold stepTask at hstep
  cases hpc : t.pc
  · -- body
    simp only [hpc] at hstep
    cases he : enrich env t.k t.v with
    | none => simp [he] at hstep
    | some r =>
      simp only [he, hset, Run.going.injEq] at hstep
      subst hstep
      refine ⟨inv_update env serviceInfo todo pre post t _ mu mu wg wg s s hinv rfl
        (by simp [live, hpc]) (by simp [crit, hpc]) (Or.inl ⟨by simp [appended, hpc], rfl⟩)
        (by simp) (fun _ => he), weight_update _ _ _ _ _ _ _ _ _ _ _ (by simp [cost, hpc])⟩
  · -- atLock
    have hmu : mu = false := by simpa [runnable, hpc] using hrun
    subst hmu
    simp only [hpc, Bool.false_eq_true, if_false, hset, Run.going.injEq] at hstep
    subst hstep
    refine ⟨inv_update env serviceInfo todo pre post t _ false true wg wg s s hinv rfl
      (by simp [live, hpc]) (by simp [crit, hpc]) (Or.inl ⟨by simp [appended, hpc], rfl⟩)
      (by simp) (fun _ => hreceq (by simp [hpc])),
      weight_update _ _ _ _ _ _ _ _ _ _ _ (by simp [cost, hpc])⟩
  · -- holding
    simp only [hpc, hset, Run.going.injEq] at hstep
    subst hstep
    refine ⟨inv_update env serviceInfo todo pre post t _ mu mu wg wg s s hinv rfl
      (by simp [live, hpc]) (by simp [crit, hpc]) (Or.inl ⟨by simp [appended, hpc], rfl⟩)
      (fun _ => rfl) (fun _ => hreceq (by simp [hpc])),
      weight_update _ _ _ _ _ _ _ _ _ _ _ (by simp [cost, hpc])⟩
  · -- loaded
    simp only [hpc, hset, Run.going.injEq] at hstep
    subst hstep
    have hold : t.old = s := holdeq hpc
    have hrec : enrich env t.k t.v = some t.csv_build := hreceq (by simp [hpc])
    refine ⟨inv_update env serviceInfo todo pre post t _ mu mu wg wg s _ hinv rfl
      (by simp [live, hpc]) (by simp [crit, hpc])
      (Or.inr ⟨by simp [appended, hpc], by simp [appended], by simp [crit, hpc],
        by simp [hold], hrec⟩)
      (by simp) (fun _ => hrec),
      weight_update _ _ _ _ _ _ _ _ _ _ _ (by simp [cost, hpc])⟩
  · -- stored
    simp only [hpc, hset, Run.going.injEq] at hstep
    subst hstep
    have hmu : mu = true := by
      cases mu with
      | true => rfl
      | false =>
        simp [List.countP_append, List.countP_cons, crit, hpc] at hmueq
    subst hmu
    refine ⟨inv_update env serviceInfo todo pre post t _ true false wg wg s s hinv rfl
      (by simp [live, hpc]) (by simp [crit, hpc]) (Or.inl ⟨by simp [appended, hpc], rfl⟩)
      (by simp) (fun _ => hreceq (by simp [hpc])),
      weight_update _ _ _ _ _ _ _ _ _ _ _ (by simp [cost, hpc])⟩
  · -- unlocked
    simp only [hpc, hset, Run.going.injEq] at hstep
    subst hstep
    have hpos : 1 ≤ wg := by
      rw [hwgeq]
      simp only [List.countP_append, List.countP_cons, live, hpc]
      simp only [bne_iff_ne, ne_eq, reduceCtorEq, not_false_eq_true, if_true]
      omega
    refine ⟨inv_update env serviceInfo todo pre post t _ mu mu wg (wg - 1) s s hinv rfl
      (by simp [live, hpc]; omega) (by simp [crit, hpc])
      (Or.inl ⟨by simp [appended, hpc], rfl⟩)
      (by simp) (fun _ => hreceq (by simp [hpc])),
      weight_update _ _ _ _ _ _ _ _ _ _ _ (by simp [cost, hpc])⟩
  · -- gone
    simp [runnable, hpc] at hrun

theorem inv_launch (env : Env) (serviceInfo : List (String × Counter)) (σ : Fan) (j : Nat)
    (k : String) (v : Counter) (hinv : Inv env serviceInfo σ) (hj : σ.todo[j]? = some (k, v)) :
    Inv env serviceInfo
      { σ with
        todo := σ.todo.eraseIdx j
        wg := σ.wg + 1
        tasks := σ.tasks ++ [{ k := k, v := v, pc := .body, csv_build := {}, old := [] }] } ∧
    weight
      { σ with
        todo := σ.todo.eraseIdx j
        wg := σ.wg + 1
        tasks := σ.tasks ++ [{ k := k, v := v, pc := .body, csv_build := {}, old := [] }] } <
      weight σ := by
  obtain ⟨todo, tasks, mu, wg, s⟩ := σ
  simp only at hj
  obtain ⟨pre, post, hsp, her⟩ := eraseIdx_split todo j (k, v) hj
  obtain ⟨h1, h2, ⟨order, h3, h4⟩, h5, h6, h7⟩ := hinv
  simp only at h1 h2 h3 h4 h5 h6 h7
  simp only [her]
  subst hsp
  refine ⟨⟨?_, ?_, ?_, ?_, ?_, ?_⟩, ?_⟩
  · simp [List.countP_append, live, h1]
  · simp [List.countP_append, crit, h2]
  · refine ⟨order, ?_, h4⟩
    simpa [List.filter_append, appended] using h3
  · intro u hu hpc
    simp only [List.mem_append, List.mem_singleton] at hu
    rcases hu with hu | hu
    · exact h5 u hu hpc
    · subst hu
      cases hpc
  · intro u hu hpc
    simp only [List.mem_append, List.mem_singleton] at hu
    rcases hu with hu | hu
    · exact h6 u hu hpc
    · subst hu
      exact absurd rfl hpc
  · show (pre ++ post ++ (tasks ++ [_]).map entry).Perm serviceInfo
    refine List.Perm.trans ?_ h7
    simp only [List.map_append, List.map_cons, List.map_nil, entry, List.append_assoc]
    refine List.Perm.append_left pre ?_
    refine (List.perm_append_comm.trans ?_)
    simp only [List.append_assoc, List.singleton_append]
    exact (List.perm_middle.trans (List.Perm.cons _ List.perm_append_comm)).symm.symm
  · simp only [weight, List.length_append, List.length_cons, List.map_append, List.map_cons,
      List.map_nil, List.sum_append, List.sum_cons, List.sum_nil, cost]
    omega

/-- While the fan-out is going some move is possible: it cannot deadlock. -/
theorem enabled_ne_nil (env : Env) (serviceInfo : List (String × Counter)) (σ : Fan)
    (hinv : Inv env serviceInfo σ) : enabled σ ≠ [] := by
  intro hnil
  have hnone : ∀ a, a ∉ enabled σ := by
    intro a
    rw [hnil]
    exact List.not_mem_nil a
  have htodo : σ.todo = [] := by
    cases hl : σ.todo with
    | nil => rfl
    | cons a l =>
      exact absurd ((mem_enabled_launch σ 0).mpr (by simp [hl])) (hnone _)
  have hwg : σ.wg ≠ 0 := fun h => hnone _ ((mem_enabled_wait σ).mpr ⟨htodo, h⟩)
  have hblocked : ∀ t ∈ σ.tasks, runnable σ.mu t = false := by
    intro t ht
    obtain ⟨i, hi⟩ := List.mem_iff_getElem?.mp ht
    cases hr : runnable σ.mu t with
    | false => rfl
    | true => exact absurd ((mem_enabled_task σ i).mpr ⟨t, hi, hr⟩) (hnone _)
  have hlive : 0 < σ.tasks.countP live := by
    rw [← hinv.wg_eq]
    omega
  obtain ⟨t, ht, htl⟩ := List.countP_pos_iff.mp hlive
  have hmu : σ.mu = true := by
    have hb := hblocked t ht
    cases hpc : t.pc <;> simp [runnable, live, hpc] at hb htl
    exact hb
  have hcrit : 0 < σ.tasks.countP crit := by
    rw [hinv.mu_eq, hmu]
    simp
  obtain ⟨u, hu, huc⟩ := List.countP_pos_iff.mp hcrit
  have hb := hblocked u hu
  cases hpc : u.pc <;> simp [runnable, crit, hpc] at hb huc

theorem stepTask_exited (env : Env) (σ : Fan) (i : Nat) (t : Task)
    (h : stepTask env σ i t = .exited) : enrich env t.k t.v = none := by
  unfold stepTask at h
  cases hpc : t.pc <;> simp only [hpc] at h
  · cases he : enrich env t.k t.v with
    | none => rfl
    | some r => simp [he] at h
  · split at h <;> cases h
  all_goals cases h

theorem stepTask_not_returned (env : Env) (σ : Fan) (i : Nat) (t : Task) (s : List CsvBuild) :
    stepTask env σ i t ≠ .returned s := by
  intro h
  unfold stepTask at h
  cases hpc : t.pc <;> simp only [hpc] at h
  · cases he : enrich env t.k t.v <;> simp [he] at h
  · split at h <;> cases h
  all_goals cases h

theorem filter_appended_of_wg (tasks : List Task) (h : tasks.countP live = 0) :
    tasks.filter appended = tasks := by
  rw [List.filter_eq_self]
  intro t ht
  have hl := (List.countP_eq_zero.mp h) t ht
  cases hpc : t.pc <;> simp [live, appended, hpc] at hl ⊢

/-- A possible move keeps what holds in every reachable state and brings the fan-out closer
to its end; it ends the process only when the body of a goroutine does, and `wg.Wait()`
returns only with the records of all entries, in the order of their writes. -/
theorem inv_act (env : Env) (serviceInfo : List (String × Counter)) (σ : Fan) (a : Action)
    (hinv : Inv env serviceInfo σ) (ha : a ∈ enabled σ) :
    (∀ σ1, act env σ a = .going σ1 → Inv env serviceInfo σ1 ∧ weight σ1 < weight σ) ∧
    (act env σ a = .exited → ∃ kv ∈ serviceInfo, enrich env kv.1 kv.2 = none) ∧
    (∀ s, act env σ a = .returned s →
      ∃ order : List (String × Counter), order.Perm serviceInfo ∧ collect env order = some s) := by
  cases a with
  | launch j =>
    have hj := (mem_enabled_launch σ j).mp ha
    obtain ⟨⟨k, v⟩, he⟩ : ∃ e, σ.todo[j]? = some e :=
      ⟨σ.todo[j], List.getElem?_eq_getElem hj⟩
    have hact : act env σ (.launch j) =
        .going { σ with
          todo := σ.todo.eraseIdx j
          wg := σ.wg + 1
          tasks := σ.tasks ++ [{ k := k, v := v, pc := .body, csv_build := {}, old := [] }] } := by
      simp [act, he]
    rw [hact]
    refine ⟨fun σ1 h => ?_, fun h => ?_, fun s h => ?_⟩
    · cases h
      exact inv_launch env serviceInfo σ j k v hinv he
    · cases h
    · cases h
  | task i =>
    obtain ⟨t, ht, hr⟩ := (mem_enabled_task σ i).mp ha
    have hact : act env σ (.task i) = stepTask env σ i t := by
      simp [act, ht]
    rw [hact]
    refine ⟨fun σ1 h => inv_stepTask env serviceInfo σ σ1 i t hinv ht hr h, fun h => ?_,
      fun s h => absurd h (stepTask_not_returned env σ i t s)⟩
    have hmem : entry t ∈ serviceInfo := by
      refine hinv.all_eq.mem_iff.mp ?_
      rw [List.mem_append, List.mem_map]
      exact Or.inr ⟨t, List.mem_iff_getElem?.mpr ⟨i, ht⟩, rfl⟩
    exact ⟨entry t, hmem, stepTask_exited env σ i t h⟩
  | wait =>
    obtain ⟨htodo, hwg⟩ := (mem_enabled_wait σ).mp ha
    have hact : act env σ .wait = .returned σ.s := by
      simp [act, htodo, hwg]
    rw [hact]
    refine ⟨fun σ1 h => ?_, fun h => ?_, fun s h => ?_⟩
    · cases h
    · cases h
    · cases h
      obtain ⟨order, h1, h2⟩ := hinv.s_eq
      refine ⟨order, ?_, h2⟩
      have hall := hinv.all_eq
      rw [htodo, List.nil_append] at hall
      rw [filter_appended_of_wg σ.tasks (by rw [← hinv.wg_eq, hwg])] at h1
      exact h1.trans hall

theorem step_eq_act (env : Env) (serviceInfo : List (String × Counter)) (σ : Fan) (c : Nat)
    (hinv : Inv env serviceInfo σ) : ∃ a ∈ enabled σ, step env c σ = act env σ a := by
  have hpos : 0 < (enabled σ).length :=
    List.length_pos.mpr (enabled_ne_nil env serviceInfo σ hinv)
  have hlt : c % (enabled σ).length < (enabled σ).length := Nat.mod_lt _ hpos
  refine ⟨(enabled σ)[c % (enabled σ).length], List.getElem_mem _, ?_⟩
  unfold step
  rw [List.getElem?_eq_getElem hlt]

theorem run_exited (env : Env) (choices : List Nat) : run env choices .exited = .exited := by
  cases choices <;> rfl

theorem run_returned (env : Env) (choices : List Nat) (s : List CsvBuild) :
    run env choices (.returned s) = .returned s := by
  cases choices <;> rfl

/-- Under every sequence of scheduler choices at least as long as the steps still to make,
the fan-out ends: the process is ended by the body of a goroutine, or `wg.Wait()` returns with
the records of all entries, in the order of their writes. -/
theorem run_spec (env : Env) (serviceInfo : List (String × Counter)) (choices : List Nat)
    (σ : Fan) (hinv : Inv env serviceInfo σ) (hlen : weight σ ≤ choices.length) :
    (run env choices (.going σ) = .exited ∧ ∃ kv ∈ serviceInfo, enrich env kv.1 kv.2 = none) ∨
    (∃ s order, run env choices (.going σ) = .returned s ∧ order.Perm serviceInfo ∧
      collect env order = some s) := by
  induction choices generalizing σ with
  | nil =>
    simp only [weight, List.length_nil] at hlen
    omega
  | cons c cs ih =>
    obtain ⟨a, ha, hstep⟩ := step_eq_act env serviceInfo σ c hinv
    obtain ⟨h1, h2, h3⟩ := inv_act env serviceInfo σ a hinv ha
    have hrun : run env (c :: cs) (.going σ) = run env cs (act env σ a) := by
      rw [← hstep]
      rfl
    rw [hrun]
    cases hact : act env σ a with
    | going σ1 =>
      obtain ⟨hinv1, hw⟩ := h1 σ1 hact
      refine ih σ1 hinv1 ?_
      simp only [List.length_cons] at hlen
      omega
    | exited =>
      rw [run_exited]
      exact Or.inl ⟨rfl, h2 hact⟩
    | returned s =>
      rw [run_returned]
      obtain ⟨order, ho1, ho2⟩ := h3 s hact
      exact Or.inr ⟨s, order, rfl, ho1, ho2⟩

theorem inv_init (env : Env) (serviceInfo : List (String × Counter)) :
    Inv env serviceInfo { todo := serviceInfo, tasks := [], mu := false, wg := 0, s := [] } := by
  refine ⟨rfl, rfl, ⟨[], List.Perm.refl _, rfl⟩, ?_, ?_, ?_⟩
  · intro t ht
    exact absurd ht (List.not_mem_nil _)
  · intro t ht
    exact absurd ht (List.not_mem_nil _)
  · simp

/-! ## Claims on the fan-out and the ranking -/

/-- C1, as stated, fails: the backend listing of `id-b` fails, and the run ends with no
collection and no output, so the records of `id-a` and `id-c` are lost as well. -/
theorem collect_abort_counterexample :
    (svcEnv.ListBackends "id-a" 1).err = false ∧ (svcEnv.ListBackends "id-c" 1).err = false ∧
    (svcEnv.ListBackends "id-b" 1).err = true ∧
    collect svcEnv (svcEnv.schedule
      [("svc-a", ⟨"id-a", 1⟩), ("svc-b", ⟨"id-b", 1⟩), ("svc-c", ⟨"id-c", 1⟩)]) = none ∧
    extractOrigin svcEnv
      [("svc-a", ⟨"id-a", 1⟩), ("svc-b", ⟨"id-b", 1⟩), ("svc-c", ⟨"id-c", 1⟩)] = none ∧
    fanOut svcEnv [2, 0, 1, 0, 0, 3, 1, 2, 0, 1, 0, 0, 0, 0, 0, 0, 0, 0, 0, 0, 0, 0]
      [("svc-a", ⟨"id-a", 1⟩), ("svc-b", ⟨"id-b", 1⟩), ("svc-c", ⟨"id-c", 1⟩)] = .exited := by
  decide

/-- C1, amended. Under every sequence of scheduler choices long enough for the fan-out to end
(seven steps per entry of the service map and one for `wg.Wait()`): when every backend listing
succeeds and no goroutine meets a nil pointer, whatever the domain listings, statistics queries
and DNS lookups answer, `wg.Wait()` returns and the collection holds exactly one record per
entry of the service map, in the order in which the goroutines wrote them (as many records as
entries, their name and ID pairs a rearrangement of those of the entries, and no name twice
when the entries have distinct names); when a backend listing fails, the process ends with no
collection. -/
theorem fanOut_spec (env : Env) (serviceInfo : List (String × Counter)) (choices : List Nat)
    (hlen : 7 * serviceInfo.length + 1 ≤ choices.length) :
    ((∀ kv ∈ serviceInfo, (env.ListBackends kv.2.id kv.2.number).err = false ∧
        StatsSafe env kv.2.id ∧ BackendsSafe (env.ListBackends kv.2.id kv.2.number).val) →
      ∃ s order, fanOut env choices serviceInfo = .returned s ∧
        order.Perm serviceInfo ∧ collect env order = some s ∧
        s.length = serviceInfo.length ∧
        (s.map (fun r => (r.ServiceName, r.ServiceID))).Perm
          (serviceInfo.map (fun kv => (kv.1, kv.2.id))) ∧
        ((serviceInfo.map Prod.fst).Nodup → (s.map CsvBuild.ServiceName).Nodup)) ∧
    ((∃ kv ∈ serviceInfo, (env.ListBackends kv.2.id kv.2.number).err = true) →
      fanOut env choices serviceInfo = .exited) := by
  have hrun := run_spec env serviceInfo choices _ (inv_init env serviceInfo)
    (by simpa [weight] using hlen)
  constructor
  · intro hsafe
    rcases hrun with ⟨-, kv, hkv, hnone⟩ | ⟨s, order, hs, hperm, hcol⟩
    · obtain ⟨h1, h2, h3⟩ := hsafe kv hkv
      obtain ⟨r, hr⟩ := enrich_some_of_safe env kv.1 kv.2 h1 h2 h3
      rw [hr] at hnone
      exact absurd hnone (by simp)
    · have hnames := collect_names env order s hcol
      have hp : (s.map (fun r => (r.ServiceName, r.ServiceID))).Perm
          (serviceInfo.map (fun kv => (kv.1, kv.2.id))) := by
        rw [hnames]
        exact hperm.map _
      refine ⟨s, order, hs, hperm, hcol, ?_, hp, fun hnd => ?_⟩
      · have := hp.length_eq
        simpa using this
      · have h1 : (s.map CsvBuild.ServiceName).Perm (serviceInfo.map Prod.fst) := by
          have := hp.map Prod.fst
          simpa [List.map_map, Function.comp_def] using this
        exact h1.nodup_iff.mpr hnd
  · rintro ⟨kv, hkv, he⟩
    rcases hrun with ⟨h, -⟩ | ⟨s, order, -, hperm, hcol⟩
    · exact h
    · have hnone : collect env order = none :=
        collect_none_of_mem env order
          ⟨kv, hperm.mem_iff.mpr hkv, enrich_none env kv.1 kv.2 he⟩
      rw [hnone] at hcol
      exact absurd hcol (by simp)

/-- C1 amended, at the services `id-a` and `id-c` under an interleaving in which the
goroutine of `id-c` writes first; the domain listing and the statistics query of `id-c` fail. -/
theorem fanOut_spec_witness :
    ∃ s, fanOut svcEnv [1, 0, 2, 1, 0, 1, 1, 0, 0, 1, 0, 0, 0, 0, 0]
        [("svc-a", ⟨"id-a", 1⟩), ("svc-c", ⟨"id-c", 1⟩)] = .returned s ∧
      s.length = 2 ∧ s.map CsvBuild.ServiceName = ["svc-c", "svc-a"] := by
  obtain ⟨s, -, h1, -, -, h4, -, -⟩ :=
    (fanOut_spec svcEnv [("svc-a", ⟨"id-a", 1⟩), ("svc-c", ⟨"id-c", 1⟩)]
      [1, 0, 2, 1, 0, 1, 1, 0, 0, 1, 0, 0, 0, 0, 0] (by decide)).1
      (by unfold StatsSafe BackendsSafe; decide)
  refine ⟨s, h1, h4, ?_⟩
  have hnames : (match fanOut svcEnv [1, 0, 2, 1, 0, 1, 1, 0, 0, 1, 0, 0, 0, 0, 0]
      [("svc-a", ⟨"id-a", 1⟩), ("svc-c", ⟨"id-c", 1⟩)] with
    | .returned s1 => s1.map CsvBuild.ServiceName
    | _ => []) = ["svc-c", "svc-a"] := by
    decide
  rw [h1] at hnames
  exact hnames

theorem strictWeak_less : StrictWeak less := by
  refine ⟨fun a => ?_, fun a b c h1 h2 => ?_, fun a b c h1 h2 => ?_⟩
  · simp [less]
  · simp only [less, decide_eq_true_eq] at *
    omega
  · simp only [less, decide_eq_false_iff_not] at *
    omega

/-- An insertion sort meets the contract of `sort.Slice`. -/
theorem sortSliceOk_insertionSort (env : Env)
    (h : env.sortSlice = fun lt l => l.insertionSort (fun a b => lt b a = false)) :
    SortSliceOk env := by
  intro lt l hsw
  obtain ⟨hirr, htr, hneg⟩ := hsw
  rw [h]
  refine ⟨List.perm_insertionSort _ l, ?_⟩
  haveI : IsTotal CsvBuild (fun a b => lt b a = false) := ⟨fun a b => by
    cases hba : lt b a
    · exact Or.inl rfl
    · right
      cases hab : lt a b
      · rfl
      · have := htr a b a hab hba
        rw [hirr a] at this
        exact Bool.noConfusion this⟩
  haveI : IsTrans CsvBuild (fun a b => lt b a = false) :=
    ⟨fun a b c hab hbc => hneg c b a hbc hab⟩
  exact List.sorted_insertionSort (fun a b => lt b a = false) l

/-- C2. With a `sort.Slice` that meets its contract, the sequence emitted after the sort step
is a rearrangement of the collected records in which the `Requests` of a record is at least
that of every record after it, so of the next one; records collected with 10, 500 and 3
requests are emitted in the order 500, 10, 3. -/
theorem ranked_sorted (env : Env) (hsort : SortSliceOk env)
    (serviceInfo : List (String × Counter)) (s : List CsvBuild)
    (hs : collect env (env.schedule serviceInfo) = some s) :
    ∃ out, ranked env serviceInfo = some out ∧
      extractOrigin env serviceInfo =
        some ((headerRow ++ "\n") :: out.map (fun t => dataRow env t ++ "\n")) ∧
      out.Perm s ∧
      out.Pairwise (fun a b => a.Requests ≥ b.Requests) ∧
      out.Chain' (fun a b => a.Requests ≥ b.Requests) ∧
      (s.map CsvBuild.Requests = [10, 500, 3] → out.map CsvBuild.Requests = [500, 10, 3]) := by
  obtain ⟨hperm, hpw⟩ := hsort less s strictWeak_less
  have hge : (env.sortSlice less s).Pairwise (fun a b => a.Requests ≥ b.Requests) := by
    refine hpw.imp ?_
    intro a b hab
    simp only [less, decide_eq_false_iff_not] at hab
    omega
  refine ⟨env.sortSlice less s, by simp [ranked, hs], by simp [extractOrigin, ranked, hs],
    hperm, hge, List.Pairwise.chain' hge, fun h => ?_⟩
  have h1 : ((env.sortSlice less s).map CsvBuild.Requests).Perm [500, 10, 3] := by
    refine ((hperm.map CsvBuild.Requests).trans ?_)
    rw [h]
    decide
  have h2 : ((env.sortSlice less s).map CsvBuild.Requests).Sorted (· ≥ ·) :=
    List.pairwise_map.mpr hge
  exact List.eq_of_perm_of_sorted h1 h2 (by decide)

/-- C2, at three services with 10, 500 and 3 requests, sorted by insertion. -/
theorem ranked_sorted_witness :
    SortSliceOk rankEnv ∧
    ∃ out, ranked rankEnv
        [("svc-a", ⟨"id-a", 1⟩), ("svc-b", ⟨"id-b", 1⟩), ("svc-c", ⟨"id-c", 1⟩)] = some out ∧
      out.map CsvBuild.Requests = [500, 10, 3] :=
  ⟨sortSliceOk_insertionSort rankEnv rfl,
    (ranked_sorted rankEnv (sortSliceOk_insertionSort rankEnv rfl)
      [("svc-a", ⟨"id-a", 1⟩), ("svc-b", ⟨"id-b", 1⟩), ("svc-c", ⟨"id-c", 1⟩)]
      [{ ServiceName := "svc-a", ServiceID := "id-a", Requests := 10 },
       { ServiceName := "svc-b", ServiceID := "id-b", Requests := 500 },
       { ServiceName := "svc-c", ServiceID := "id-c", Requests := 3 }]
      (by decide)).imp
      (fun _ h => ⟨h.1, h.2.2.2.2.2 (by decide)⟩)⟩

/-! ## Emission -/

theorem digitChar_ne_comma : ∀ n < 10, Nat.digitChar n ≠ ',' := by
  decide

theorem toDigitsCore_no_comma (fuel n : Nat) (ds : List Char) (h : ',' ∉ ds) :
    ',' ∉ Nat.toDigitsCore 10 fuel n ds := by
  induction fuel generalizing n ds with
  | zero => simpa [Nat.toDigitsCore] using h
  | succ f ih =>
    have hd : ',' ∉ Nat.digitChar (n % 10) :: ds := by
      simp only [List.mem_cons, not_or]
      exact ⟨fun e => digitChar_ne_comma _ (Nat.mod_lt n (by decide)) e.symm, h⟩
    unfold Nat.toDigitsCore
    simp only
    split
    · exact hd
    · exact ih _ _ hd

theorem fmtUint_no_comma (n : Nat) : ',' ∉ (fmtUint n).toList := by
  show ',' ∉ (Nat.repr n).toList
  unfold Nat.repr Nat.toDigits
  exact toDigitsCore_no_comma _ _ _ (List.not_mem_nil _)

theorem intercalate_go_no_comma (acc sep : String) (l : List String)
    (hacc : ',' ∉ acc.toList) (hsep : ',' ∉ sep.toList) (hl : ∀ a ∈ l, ',' ∉ a.toList) :
    ',' ∉ (String.intercalate.go acc sep l).toList := by
  induction l generalizing acc with
  | nil => simpa [String.intercalate.go] using hacc
  | cons a t ih =>
    unfold String.intercalate.go
    refine ih _ ?_ (fun x hx => hl x (List.mem_cons_of_mem _ hx))
    simp only [String.toList, String.data_append, List.mem_append, not_or]
    exact ⟨⟨hacc, hsep⟩, hl a (List.mem_cons_self _ _)⟩

theorem fmtStrings_no_comma (l : List String) (hl : ∀ a ∈ l, ',' ∉ a.toList) :
    ',' ∉ (fmtStrings l).toList := by
  have hi : ',' ∉ (" ".intercalate l).toList := by
    cases l with
    | nil => simp [String.intercalate]
    | cons a t =>
      unfold String.intercalate
      exact intercalate_go_no_comma a " " t (hl a (List.mem_cons_self _ _)) (by decide)
        (fun x hx => hl x (List.mem_cons_of_mem _ hx))
  unfold fmtStrings
  simp only [String.toList, String.data_append, List.mem_append, not_or]
  exact ⟨⟨by decide, hi⟩, by decide⟩

theorem dataRow_toList (env : Env) (t : CsvBuild) :
    (dataRow env t).toList =
      [','].intercalate
        [t.ServiceName.toList, (fmtStrings t.Origin).toList, (fmtStrings t.Domains).toList,
          (env.fmtFloat t.HitRatio).toList, (fmtUint t.Status400).toList,
          (fmtUint t.Status401).toList, (fmtUint t.Status403).toList,
          (fmtUint t.Status404).toList, (fmtUint t.Status500).toList,
          (fmtUint t.Status501).toList, (fmtUint t.Status502).toList,
          (fmtUint t.Status503).toList, (fmtUint t.Status504).toList,
          (fmtUint t.Status505).toList] := by
  simp [dataRow, String.toList, String.data_append, List.intercalate, List.intersperse]

/-- C8, as stated, fails: a comma in the service name is written as it is, and the data line
splits into 15 fields against the 14 of the header. -/
theorem dataRow_comma_counterexample :
    (fields headerRow).length = 14 ∧ (fields (dataRow quiet commaRecord)).length = 15 := by
  decide

theorem fmtFloatOk_reportEnv : FmtFloatOk reportEnv := by
  intro x
  show ',' ∉ (if x.bits = 4606011482896901079 then "0.870000" else "0.000000").toList
  split <;> decide

/-- C8, amended. With a `%f` that writes no comma: for every record whose service name, origin
hostnames and domain names hold no comma, the data line splits on commas into exactly the 14
fields of the header line, in the header's order, each field the record's value for that
column: the name, the origins and the domains in bracketed form, the hit ratio, and the
counters for 400, 401, 403, 404, 500, 501, 502, 503, 504, 505. -/
theorem dataRow_fields (env : Env) (hfloat : FmtFloatOk env) (t : CsvBuild)
    (hname : ',' ∉ t.ServiceName.toList) (horigin : ∀ o ∈ t.Origin, ',' ∉ o.toList)
    (hdomains : ∀ d ∈ t.Domains, ',' ∉ d.toList) :
    fields (dataRow env t) =
      [t.ServiceName, fmtStrings t.Origin, fmtStrings t.Domains, env.fmtFloat t.HitRatio,
        fmtUint t.Status400, fmtUint t.Status401, fmtUint t.Status403, fmtUint t.Status404,
        fmtUint t.Status500, fmtUint t.Status501, fmtUint t.Status502, fmtUint t.Status503,
        fmtUint t.Status504, fmtUint t.Status505] ∧
    fields headerRow =
      ["service name", "origin", "domains", "hit-ratio", "400status", "401status", "403status",
        "404status", "500status", "501status", "502status", "503status", "504status",
        "505status"] ∧
    (fields (dataRow env t)).length = (fields headerRow).length := by
  have hrow : fields (dataRow env t) =
      [t.ServiceName, fmtStrings t.Origin, fmtStrings t.Domains, env.fmtFloat t.HitRatio,
        fmtUint t.Status400, fmtUint t.Status401, fmtUint t.Status403, fmtUint t.Status404,
        fmtUint t.Status500, fmtUint t.Status501, fmtUint t.Status502, fmtUint t.Status503,
        fmtUint t.Status504, fmtUint t.Status505] := by
    unfold fields
    rw [dataRow_toList, List.splitOn_intercalate _ ',' ?_ (by simp)]
    · rfl
    · intro l hl
      simp only [List.mem_cons, List.mem_singleton, List.not_mem_nil, or_false] at hl
      rcases hl with h | h | h | h | h | h | h | h | h | h | h | h | h | h <;> subst h
      · exact hname
      · exact fmtStrings_no_comma _ horigin
      · exact fmtStrings_no_comma _ hdomains
      · exact hfloat _
      all_goals exact fmtUint_no_comma _
  have hhead : fields headerRow =
      ["service name", "origin", "domains", "hit-ratio", "400status", "401status", "403status",
        "404status", "500status", "501status", "502status", "503status", "504status",
        "505status"] := by
    decide
  refine ⟨hrow, hhead, ?_⟩
  rw [hrow, hhead]
  rfl

/-- C8 amended, at the record of the specification's example. -/
theorem dataRow_fields_witness :
    FmtFloatOk reportEnv ∧
    dataRow reportEnv exampleRecord =
      "svc-a,[o1.example.com],[d1.example.com],0.870000,2,0,0,0,0,0,0,0,0,0" ∧
    (fields (dataRow reportEnv exampleRecord)).length = 14 :=
  ⟨fmtFloatOk_reportEnv, by decide,
    (dataRow_fields reportEnv fmtFloatOk_reportEnv exampleRecord (by decide) (by decide)
      (by decide)).2.2.trans (by decide)⟩

end FastlyApi
